import Mathlib

/-!
Verification model of the staged incremental ETL loader in
`app/utils/etl/order_processor.py` (`process_order_file`, `update_factory_list`,
`update_product_list`) and `app/utils/etl/sales_processor.py`
(`process_sales_file`).

Modelling conventions:
* Timestamps are natural numbers.  `sentinel1900 = 0` encodes the
  `'1900-01-01'::timestamp` sentinel of `COALESCE(MAX(import_timestamp), ...)`;
  every genuine wall-clock timestamp is positive.
* Dates are `Option Nat` (already parsed; `None` is a null/`NaT`).
* Each SQL relation is a list of records in insertion order; a unique
  constraint on the business key corresponds to the `Nodup` property of the
  key column.  `INSERT ... ON CONFLICT` is `upsertRow` with a per-kind
  conflict action `upd` (`DO UPDATE SET` of the mutable fields, or the
  identity for `DO NOTHING`).
* Only the columns that the claims' dataflow touches are modelled; all
  omitted columns are mere pass-through payload in the source.
* The per-row `try/except` insert loops are `insertLoop`, parameterised by a
  `fails` oracle giving the engine-level error (if any) of each statement.
  The `asyncpg.UniqueViolationError` branch of the source is unreachable
  because every statement carries an `ON CONFLICT` clause, hence the
  `conflicts` counter of `LoopOut` is never incremented, exactly as in the
  source.
-/

/-- Python `str.replace('.0', '')` on the character list: removes every
(left-to-right, non-overlapping) occurrence of the two-character substring
`".0"`.  Note this is not restricted to a trailing `".0"`. -/
def stripDot0 : List Char → List Char
  | [] => []
  | [c] => [c]
  | c₁ :: c₂ :: rest =>
    if c₁ = '.' ∧ c₂ = '0' then stripDot0 rest
    else c₁ :: stripDot0 (c₂ :: rest)

/-- The `.replace('.0', '')` cleaning applied throughout both processors
(`str(x).replace('.0', '')`, `.str.replace('.0', '', regex=False)` and the SQL
`REPLACE(factory_code, '.0', '')`). -/
def cleanText (s : String) : String := ⟨stripDot0 s.data⟩

/-- Python `f"{n:04}"` / `str.zfill(4)`: decimal rendering left-padded with
zeros to a minimum width of four. -/
def pad4 (n : Nat) : String :=
  if n < 10 then "000" ++ toString n
  else if n < 100 then "00" ++ toString n
  else if n < 1000 then "0" ++ toString n
  else toString n

/-- Pandas `.str.split("-").str[0]`: the token before the first `"-"`
(the whole string when no dash occurs). -/
def firstTok (s : String) : String := ⟨s.data.takeWhile (fun c => c != '-')⟩

/-- ASCII lower-casing of a character, as a code point (`str.lower()` on the
ASCII range; the four KDT markers are ASCII). -/
def lowN (c : Char) : Nat :=
  if 65 ≤ c.toNat ∧ c.toNat ≤ 90 then c.toNat + 32 else c.toNat

/-- Case-insensitive prefix test on character lists (needle first). -/
def isPrefixCI : List Char → List Char → Bool
  | [], _ => true
  | _ :: _, [] => false
  | a :: as, b :: bs => lowN a == lowN b && isPrefixCI as bs

/-- Case-insensitive contiguous-substring test (needle, haystack). -/
def containsSeqCI (needle : List Char) : List Char → Bool
  | [] => needle.isEmpty
  | c :: rest => isPrefixCI needle (c :: rest) || containsSeqCI needle rest

/-- Pandas `.str.contains(m, case=False)` for a plain (regex-free) marker:
case-insensitive substring test. -/
def strContainsCI (hay needle : String) : Bool :=
  containsSeqCI needle.data hay.data

/-- Python `str(x)` on a value fetched from the database: `None` renders as
the string `"None"` (pandas `.astype(str)` on an object column of `None`s). -/
def pyStr : Option String → String
  | none => "None"
  | some s => s

/-- Python `str(x)` / `.astype(str)` on a raw spreadsheet cell: a missing cell
is a float `NaN` and renders as `"nan"`. -/
def pyStrNan : Option String → String
  | none => "nan"
  | some s => s

/-- Encodes `'1900-01-01'::timestamp`, the `COALESCE` default used when the
fact relation is empty; all genuine timestamps are positive. -/
def sentinel1900 : Nat := 0

/-- `COALESCE(MAX(...), sentinel)` over a list of timestamps. -/
def listMax (l : List Nat) : Nat := l.foldl max sentinel1900

/-- First row of the relation carrying the given key (`SELECT ... WHERE key = k`). -/
def findRow (key : α → String) (T : List α) (k : String) : Option α :=
  T.find? (fun x => key x == k)

/-- One `INSERT ... ON CONFLICT` statement: if the business key is already
present the conflict action `upd old new` is applied to the existing row(s),
otherwise the row is appended. -/
def upsertRow (key : α → String) (upd : α → α → α) (T : List α) (r : α) : List α :=
  if (T.map key).contains (key r) then
    T.map (fun x => if key x == key r then upd x r else x)
  else T ++ [r]

/-- A batch of `INSERT ... ON CONFLICT` statements executed in row order. -/
def upsertTable (key : α → String) (upd : α → α → α) (T : List α) (rs : List α) : List α :=
  rs.foldl (upsertRow key upd) T

/-- Result of one per-row insert loop: the relation afterwards, the
`successful_inserts` counter, the (dead) `conflicts` counter and the
accumulated `stats["errors"]` entries. -/
structure LoopOut (α : Type) where
  table : List α
  ok : Nat
  conflicts : Nat
  errors : List String
deriving DecidableEq

/-- The per-row insert loop of both processors: each row's statement either
succeeds (`fails r = none`; the upsert is applied and `successful_inserts`
is bumped) or raises (`fails r = some msg`; the error is appended to the
report and the loop continues with the next row).  The
`except asyncpg.UniqueViolationError` branch never fires because the
statement's `ON CONFLICT` clause absorbs business-key collisions, so
`conflicts` stays 0. -/
def insertLoop (key : α → String) (upd : α → α → α) (tag : String)
    (fails : α → Option String) (T : List α) (rows : List α) : LoopOut α :=
  rows.foldl (fun o r =>
    match fails r with
    | some m => { o with errors := o.errors ++ [tag ++ key r ++ ": " ++ m] }
    | none => { o with table := upsertRow key upd o.table r, ok := o.ok + 1 })
    ⟨T, 0, 0, []⟩

/-- One raw row of an order extract (`COPR13` spreadsheet) after positional
column binding; cells are `none` when empty, numeric-looking text cells carry
their Python string rendering. -/
structure OrderRaw where
  order_date : Option Nat
  order_code : Option String
  factory_code : Option String
  factory_name : Option String
  product_code : Option String
  product_name : Option String
  qc : Option String
  order_quantity : Option Int
  delivered_quantity : Option Int
  factory_order_code : Option String
  numerical_order : Option Nat
deriving DecidableEq

/-- A row of the `copr13` staging relation (modelled columns). -/
structure StagingOrder where
  order_code : String
  order_date : Option Nat
  factory_code : Option String
  factory_name : Option String
  factory_order_code : Option String
  salesman : Option String
  product_code : Option String
  product_name : Option String
  qc : Option String
  order_quantity : Option Int
  delivered_quantity : Option Int
  import_timestamp : Nat
deriving DecidableEq

/-- A row of the `fact_order` relation (modelled columns).  `factory_code` is
a plain string because the promotion stage runs it through `.astype(str)`. -/
structure FactOrder where
  order_code : String
  factory_code : String
  factory_order_code : Option String
  product_code : Option String
  product_name : Option String
  qc : Option String
  order_quantity : Option Int
  delivered_quantity : Option Int
  import_timestamp : Nat
  import_wh_timestamp : Nat
deriving DecidableEq

/-- A `fact_order` row with both timestamp columns erased: the business key,
the descriptive fields and the measure values. -/
structure FactOrderData where
  order_code : String
  factory_code : String
  factory_order_code : Option String
  product_code : Option String
  product_name : Option String
  qc : Option String
  order_quantity : Option Int
  delivered_quantity : Option Int
deriving DecidableEq

/-- Erase the two timestamp columns of a fact row. -/
def FactOrder.erase (f : FactOrder) : FactOrderData :=
  ⟨f.order_code, f.factory_code, f.factory_order_code, f.product_code,
   f.product_name, f.qc, f.order_quantity, f.delivered_quantity⟩

/-- One raw row of a sales extract after positional column binding. -/
structure SalesRaw where
  sales_date : Option Nat
  sales_code : Option String
  factory_code : Option String
  factory_name : Option String
  salesman : Option String
  product_code : Option String
  product_name : Option String
  qc : Option String
  order_code : Option String
  sales_quantity : Option Int
  factory_order_code : Option String
deriving DecidableEq

/-- A row of the `copr23` staging relation (modelled columns).  `factory_code`
is a plain string: the normaliser runs it through `.astype(str)`, so a missing
cell lands as the literal string `"nan"`. -/
structure StagingSales where
  sales_code : String
  sales_date : Option Nat
  factory_code : String
  factory_name : Option String
  salesman : Option String
  product_code : Option String
  product_name : Option String
  qc : Option String
  order_code : Option String
  sales_quantity : Option Int
  factory_order_code : Option String
  import_timestamp : Nat
deriving DecidableEq

/-- A row of the `fact_sales` relation (modelled columns). -/
structure FactSales where
  sales_code : String
  factory_code : String
  factory_order_code : Option String
  product_code : Option String
  product_name : Option String
  qc : Option String
  order_code : Option String
  sales_quantity : Option Int
  import_timestamp : Nat
  import_wh_timestamp : Nat
deriving DecidableEq

/-- A `fact_sales` row with both timestamp columns erased. -/
structure FactSalesData where
  sales_code : String
  factory_code : String
  factory_order_code : Option String
  product_code : Option String
  product_name : Option String
  qc : Option String
  order_code : Option String
  sales_quantity : Option Int
deriving DecidableEq

/-- Erase the two timestamp columns of a sales fact row. -/
def FactSales.erase (f : FactSales) : FactSalesData :=
  ⟨f.sales_code, f.factory_code, f.factory_order_code, f.product_code,
   f.product_name, f.qc, f.order_code, f.sales_quantity⟩

/-- A row of the `dim_factory` dimension relation. -/
structure DimFactory where
  factory_code : String
  factory_name : Option String
  is_active : Bool
  has_onsite : Bool
  salesman : Option String
deriving DecidableEq

/-- A row of the `dim_product` dimension relation. -/
structure DimProduct where
  product_name : String
deriving DecidableEq

/-- The warehouse state touched by the two processors. -/
structure DW where
  copr13 : List StagingOrder
  fact_order : List FactOrder
  copr23 : List StagingSales
  fact_sales : List FactSales
  dim_factory : List DimFactory
  dim_product : List DimProduct
deriving DecidableEq

/-- The aggregate run report (`stats` dictionary; the two filename/timestamp
entries are not modelled). -/
structure RunStats where
  staging_rows : Nat
  warehouse_rows : Nat
  conflicts : Nat
  errors : List String
deriving DecidableEq

/-- Conflict action of the `copr13` staging insert:
`ON CONFLICT (order_code) DO UPDATE SET order_quantity, delivered_quantity,
import_timestamp`. -/
def updStagingOrder (a b : StagingOrder) : StagingOrder :=
  { a with order_quantity := b.order_quantity,
           delivered_quantity := b.delivered_quantity,
           import_timestamp := b.import_timestamp }

/-- Conflict action of the `fact_order` insert:
`ON CONFLICT (order_code) DO UPDATE SET order_quantity, delivered_quantity,
import_wh_timestamp` (note: `import_timestamp` is not updated). -/
def updFactOrder (a b : FactOrder) : FactOrder :=
  { a with order_quantity := b.order_quantity,
           delivered_quantity := b.delivered_quantity,
           import_wh_timestamp := b.import_wh_timestamp }

/-- Conflict action of the `copr23` staging insert:
`ON CONFLICT (sales_code) DO NOTHING`. -/
def updStagingSales (a _b : StagingSales) : StagingSales := a

/-- Conflict action of the `fact_sales` insert:
`ON CONFLICT (sales_code) DO UPDATE SET sales_quantity, import_wh_timestamp`. -/
def updFactSales (a b : FactSales) : FactSales :=
  { a with sales_quantity := b.sales_quantity,
           import_wh_timestamp := b.import_wh_timestamp }

/-- Step 1 of `process_order_file`: drop rows whose `order_code` or
`numerical_order` is missing, build the business key
`order_code + "-" + f"{numerical_order:04}"`, strip float artifacts from the
text columns, and stamp `import_timestamp := t`. -/
def normalizeOrder (t : Nat) (rows : List OrderRaw) : List StagingOrder :=
  rows.filterMap fun r =>
    match r.order_code, r.numerical_order with
    | some oc, some n =>
      some { order_code := oc ++ "-" ++ pad4 n
             order_date := r.order_date
             factory_code := r.factory_code.map cleanText
             factory_name := r.factory_name
             factory_order_code := r.factory_order_code.map cleanText
             salesman := none
             product_code := r.product_code.map cleanText
             product_name := r.product_name.map cleanText
             qc := r.qc.map cleanText
             order_quantity := r.order_quantity
             delivered_quantity := r.delivered_quantity
             import_timestamp := t }
    | _, _ => none

/-- Build one `copr23` staging record: key `sales_code + "-" + zfill4(n)`
where `n` is the per-natural-key running count; the text-column cleaning of
the normaliser also covers the `sales_code` column itself, and
`factory_code` is cleaned twice (line 59 and the text-column loop). -/
def mkStagingSales (t : Nat) (nk : String) (n : Nat) (r : SalesRaw) : StagingSales :=
  { sales_code := cleanText (nk ++ "-" ++ pad4 n)
    sales_date := r.sales_date
    factory_code := cleanText (cleanText (pyStrNan r.factory_code))
    factory_name := r.factory_name.map cleanText
    salesman := r.salesman.map cleanText
    product_code := r.product_code.map cleanText
    product_name := r.product_name.map cleanText
    qc := r.qc.map cleanText
    order_code := r.order_code.map cleanText
    sales_quantity := r.sales_quantity
    factory_order_code := r.factory_order_code.map cleanText
    import_timestamp := t }

/-- Worker for `normalizeSales`: `seen` carries the running occurrence count
of each natural key (the `groupby("sales_code").cumcount() + 1`). -/
def normSalesGo (t : Nat) (seen : List (String × Nat)) : List SalesRaw → List StagingSales
  | [] => []
  | r :: rs =>
    match r.sales_code with
    | none => normSalesGo t seen rs
    | some nk =>
      let n := (match seen.find? (fun p => p.1 == nk) with
                | some p => p.2
                | none => 0) + 1
      mkStagingSales t nk n r ::
        normSalesGo t ((nk, n) :: seen.filter (fun p => p.1 != nk)) rs

/-- Step 1 of `process_sales_file`: drop rows with a missing `sales_code`,
synthesise the business key with a per-natural-key running count in source
row order, clean the text columns, stamp `import_timestamp := t`. -/
def normalizeSales (t : Nat) (rows : List SalesRaw) : List StagingSales :=
  normSalesGo t [] rows

/-- Step 3 of both processors:
`SELECT COALESCE(MAX(import_timestamp), '1900-01-01'::timestamp) FROM fact_order`. -/
def watermarkOrder (F : List FactOrder) : Nat :=
  listMax (F.map (fun f => f.import_timestamp))

/-- Step 3 of `process_sales_file` against `fact_sales`. -/
def watermarkSales (F : List FactSales) : Nat :=
  listMax (F.map (fun f => f.import_timestamp))

/-- Step 4 of `process_order_file`:
`SELECT ... FROM copr13 WHERE import_timestamp > $1` with the watermark. -/
def selectNewOrder (S : List StagingOrder) (F : List FactOrder) : List StagingOrder :=
  S.filter (fun r => decide (watermarkOrder F < r.import_timestamp))

/-- Step 4 of `process_sales_file`. -/
def selectNewSales (S : List StagingSales) (F : List FactSales) : List StagingSales :=
  S.filter (fun r => decide (watermarkSales F < r.import_timestamp))

/-- The KDT factory-code remap (both processors): when the (cleaned) primary
code equals the composite `"30895.2"`, a null companion is first filled with
`"temp"`, then the four case-insensitive substring markers are tested in the
fixed order ST, TN, BP, QT, each match overwriting the code, so the last
matching marker wins. -/
def kdtCode (fc : String) (foc : Option String) : String :=
  if fc == "30895.2" then
    let comp := foc.getD "temp"
    let f1 := if strContainsCI comp "ST" then "30895.1" else fc
    let f2 := if strContainsCI comp "TN" then "30895" else f1
    let f3 := if strContainsCI comp "BP" then "30895.5" else f2
    if strContainsCI comp "QT" then "30895.4" else f3
  else fc

/-- Step 5 of `process_order_file`, per selected row (the pandas merge on the
unique `order_code` is row-wise equivalent): clean `factory_code` through
`.astype(str).str.replace('.0','')`, apply the KDT remap, stamp
`import_wh_timestamp := tw`. -/
def promoteRowOrder (tw : Nat) (r : StagingOrder) : FactOrder :=
  let fc := cleanText (pyStr r.factory_code)
  { order_code := r.order_code
    factory_code := kdtCode fc r.factory_order_code
    factory_order_code := r.factory_order_code
    product_code := r.product_code
    product_name := r.product_name
    qc := r.qc
    order_quantity := r.order_quantity
    delivered_quantity := r.delivered_quantity
    import_timestamp := r.import_timestamp
    import_wh_timestamp := tw }

/-- Step 5 of `process_order_file` on the selected batch: keep rows whose
business-key token before the first `"-"` is `"2201"`, drop rows without
`qc`, then transform each row. -/
def promoteBatchOrder (tw : Nat) (sel : List StagingOrder) : List FactOrder :=
  (((sel.filter (fun r => firstTok r.order_code == "2201")).filter
      (fun r => r.qc.isSome)).map (promoteRowOrder tw))

/-- Step 5 of `process_sales_file`, per selected row: the warehouse-stage
text-column cleaning (`text_columns_wh`, which includes `sales_code`,
`factory_code` and `factory_order_code`) followed by the KDT remap on the
cleaned fields, stamping `import_wh_timestamp := tw`. -/
def promoteRowSales (tw : Nat) (r : StagingSales) : FactSales :=
  let fc := cleanText r.factory_code
  let foc := r.factory_order_code.map cleanText
  { sales_code := cleanText r.sales_code
    factory_code := kdtCode fc foc
    factory_order_code := foc
    product_code := r.product_code.map cleanText
    product_name := r.product_name.map cleanText
    qc := r.qc.map cleanText
    order_code := r.order_code.map cleanText
    sales_quantity := r.sales_quantity
    import_timestamp := r.import_timestamp
    import_wh_timestamp := tw }

/-- Step 5 of `process_sales_file` on the selected batch: keep rows whose
business-key token before the first `"-"` is `"2301"` or `"2302"`, drop rows
without `qc`, then transform each row. -/
def promoteBatchSales (tw : Nat) (sel : List StagingSales) : List FactSales :=
  (((sel.filter (fun r => firstTok r.sales_code == "2301" ||
      firstTok r.sales_code == "2302")).filter
      (fun r => r.qc.isSome)).map (promoteRowSales tw))

/-- Postgres rendering of an `order_date` for the `ORDER BY order_date DESC
NULLS LAST` of `update_factory_list`: nulls sort last, i.e. below every date. -/
def dateVal : Option Nat → Nat
  | none => 0
  | some d => d + 1

/-- Accumulator step of the `SELECT DISTINCT ON (factory_code) ... ORDER BY
factory_code, order_date DESC NULLS LAST`: per cleaned code keep the row with
the greatest `order_date` (ties keep the earlier row; Postgres leaves ties
unspecified). -/
def pickLatest (acc : List (String × StagingOrder)) (k : String) (r : StagingOrder) :
    List (String × StagingOrder) :=
  match acc.find? (fun p => p.1 == k) with
  | none => acc ++ [(k, r)]
  | some p =>
    if dateVal p.2.order_date < dateVal r.order_date then
      acc.map (fun q => if q.1 == k then (k, r) else q)
    else acc

/-- The candidate rows of `update_factory_list`: distinct non-null (cleaned)
factory codes from the whole `copr13` relation, each with its
most-recently-dated row. -/
def distinctOnFactory (S : List StagingOrder) : List (String × StagingOrder) :=
  S.foldl (fun acc r =>
    match r.factory_code with
    | none => acc
    | some fc => pickLatest acc (cleanText fc) r) []

/-- `update_factory_list`: insert the candidate factories into `dim_factory`
with `ON CONFLICT (factory_code) DO NOTHING` (existing rows untouched). -/
def updateFactoryList (dim : List DimFactory) (S : List StagingOrder) : List DimFactory :=
  upsertTable (fun d => d.factory_code) (fun a _ => a) dim
    ((distinctOnFactory S).map (fun p =>
      { factory_code := p.1
        factory_name := p.2.factory_name
        is_active := true
        has_onsite := false
        salesman := p.2.salesman }))

/-- The candidate names of `update_product_list`: distinct non-null product
names from the whole `copr13` relation. -/
def distinctProducts (S : List StagingOrder) : List String :=
  S.foldl (fun acc r =>
    match r.product_name with
    | none => acc
    | some pn => if acc.contains pn then acc else acc ++ [pn]) []

/-- `update_product_list`: insert the candidate names into `dim_product` with
`ON CONFLICT (product_name) DO NOTHING`. -/
def updateProductList (dim : List DimProduct) (S : List StagingOrder) : List DimProduct :=
  upsertTable (fun d => d.product_name) (fun a _ => a) dim
    ((distinctProducts S).map (fun n => ⟨n⟩))

/-- The staging loop of `process_order_file` (lines 156-171). -/
def stagingLoopOrder (fails : StagingOrder → Option String)
    (T : List StagingOrder) (rows : List StagingOrder) : LoopOut StagingOrder :=
  insertLoop (fun r => r.order_code) updStagingOrder
    "Staging insert error for " fails T rows

/-- The warehouse loop of `process_order_file` (lines 269-277). -/
def factLoopOrder (fails : FactOrder → Option String)
    (T : List FactOrder) (rows : List FactOrder) : LoopOut FactOrder :=
  insertLoop (fun r => r.order_code) updFactOrder
    "Warehouse insert error for " fails T rows

/-- The staging loop of `process_sales_file` (lines 120-135). -/
def stagingLoopSales (fails : StagingSales → Option String)
    (T : List StagingSales) (rows : List StagingSales) : LoopOut StagingSales :=
  insertLoop (fun r => r.sales_code) updStagingSales
    "Staging insert error for " fails T rows

/-- The warehouse loop of `process_sales_file` (lines 249-257). -/
def factLoopSales (fails : FactSales → Option String)
    (T : List FactSales) (rows : List FactSales) : LoopOut FactSales :=
  insertLoop (fun r => r.sales_code) updFactSales
    "Warehouse insert error for " fails T rows

/-- One run of `process_order_file` on an extract, with `t` the normalisation
wall-clock time (line 80) and `tw` the promotion wall-clock time (line 246);
every database statement succeeds (the error-free path).  When the watermark
query returns no rows the run returns early (lines 195-198) without touching
the fact or dimension relations. -/
def runOrder (raws : List OrderRaw) (t tw : Nat) (s : DW) : DW × RunStats :=
  let batch := normalizeOrder t raws
  let st := stagingLoopOrder (fun _ => none) s.copr13 batch
  let sel := selectNewOrder st.table s.fact_order
  if sel.isEmpty then
    ({ s with copr13 := st.table },
     { staging_rows := st.ok, warehouse_rows := 0,
       conflicts := st.conflicts, errors := st.errors })
  else
    let fb := promoteBatchOrder tw sel
    let wh := factLoopOrder (fun _ => none) s.fact_order fb
    ({ s with copr13 := st.table
              fact_order := wh.table
              dim_factory := updateFactoryList s.dim_factory st.table
              dim_product := updateProductList s.dim_product st.table },
     { staging_rows := st.ok, warehouse_rows := wh.ok,
       conflicts := st.conflicts, errors := st.errors ++ wh.errors })

/-- One run of `process_sales_file`; the sales processor never touches the
dimension relations. -/
def runSales (raws : List SalesRaw) (t tw : Nat) (s : DW) : DW × RunStats :=
  let batch := normalizeSales t raws
  let st := stagingLoopSales (fun _ => none) s.copr23 batch
  let sel := selectNewSales st.table s.fact_sales
  if sel.isEmpty then
    ({ s with copr23 := st.table },
     { staging_rows := st.ok, warehouse_rows := 0,
       conflicts := st.conflicts, errors := st.errors })
  else
    let fb := promoteBatchSales tw sel
    let wh := factLoopSales (fun _ => none) s.fact_sales fb
    ({ s with copr23 := st.table, fact_sales := wh.table },
     { staging_rows := st.ok, warehouse_rows := wh.ok,
       conflicts := st.conflicts, errors := st.errors ++ wh.errors })

/-- The empty warehouse. -/
def emptyDW : DW := ⟨[], [], [], [], [], []⟩

/-- Effect of a sequence of conflicting inserts on one key slot: starting
from the current row (if any), fold the conflict action over the batch rows
carrying that key, the first one inserting when the slot is empty. -/
def applyOccs (upd : α → α → α) : Option α → List α → Option α
  | o, [] => o
  | some a, b :: bs => applyOccs upd (some (upd a b)) bs
  | none, b :: bs => applyOccs upd (some b) bs

/-- Re-stamp the normalisation time of an order staging row. -/
def stampO (t : Nat) (r : StagingOrder) : StagingOrder :=
  { r with import_timestamp := t }

/-- Re-stamp the normalisation time of a sales staging row. -/
def stampS (t : Nat) (r : StagingSales) : StagingSales :=
  { r with import_timestamp := t }

/-- The `copr13` relation after the staging stage of an error-free order run. -/
def orderStagedTable (raws : List OrderRaw) (t : Nat) (s : DW) : List StagingOrder :=
  upsertTable (fun r => r.order_code) updStagingOrder s.copr13 (normalizeOrder t raws)

/-- The watermark-selected rows of an error-free order run. -/
def orderSelected (raws : List OrderRaw) (t : Nat) (s : DW) : List StagingOrder :=
  selectNewOrder (orderStagedTable raws t s) s.fact_order

/-- The `copr23` relation after the staging stage of an error-free sales run. -/
def salesStagedTable (raws : List SalesRaw) (t : Nat) (s : DW) : List StagingSales :=
  upsertTable (fun r => r.sales_code) updStagingSales s.copr23 (normalizeSales t raws)

/-- The watermark-selected rows of an error-free sales run. -/
def salesSelected (raws : List SalesRaw) (t : Nat) (s : DW) : List StagingSales :=
  selectNewSales (salesStagedTable raws t s) s.fact_sales

section GenericTable

variable {α : Type} (key : α → String) (upd : α → α → α)

/-- Bridge between the executable `contains` test of `upsertRow` and list
membership. -/
theorem contains_iff_mem {l : List String} {k : String} : l.contains k = true ↔ k ∈ l :=
  List.elem_iff

/-- Folding `max` from any seed is the maximum of the seed and of the fold
from zero. -/
theorem foldl_max_shift (l : List Nat) : ∀ a : Nat, l.foldl max a = max a (l.foldl max 0) := by
  induction l with
  | nil => intro a; simp
  | cons x l ih =>
    intro a
    simp only [List.foldl_cons]
    rw [ih (max a x), ih (max 0 x)]
    omega

/-- Every element is bounded by `listMax`. -/
theorem le_listMax {l : List Nat} {x : Nat} (hx : x ∈ l) : x ≤ listMax l := by
  induction l with
  | nil => cases hx
  | cons y l ih =>
    unfold listMax at *
    simp only [List.foldl_cons]
    rw [foldl_max_shift]
    unfold sentinel1900 at *
    rcases List.mem_cons.mp hx with h | h
    · subst h; omega
    · have := ih h; omega

/-- `listMax` of a list of values all strictly below a positive bound stays
strictly below that bound. -/
theorem listMax_lt_of_all_lt {l : List Nat} {t : Nat} (ht : 0 < t)
    (h : ∀ x ∈ l, x < t) : listMax l < t := by
  induction l with
  | nil => simpa [listMax, sentinel1900] using ht
  | cons y l ih =>
    unfold listMax at *
    simp only [List.foldl_cons]
    rw [foldl_max_shift]
    unfold sentinel1900 at *
    have h1 := h y (by simp)
    have h2 := ih (fun x hx => h x (List.mem_cons_of_mem _ hx))
    omega

/-- `listMax` does not decrease when the list is extended on the right. -/
theorem listMax_le_append (l l₂ : List Nat) : listMax l ≤ listMax (l ++ l₂) := by
  unfold listMax
  rw [List.foldl_append, foldl_max_shift l₂]
  omega

/-- `find?` looks in the left part of an append first. -/
theorem find?_append_left {p : α → Bool} {l : List α} {a : α} (h : l.find? p = some a)
    (l₂ : List α) : (l ++ l₂).find? p = some a := by
  induction l with
  | nil => simp [List.find?] at h
  | cons x l ih =>
    by_cases hx : p x
    · simp_all [List.find?_cons_of_pos]
    · simp only [List.find?_cons_of_neg _ hx] at h
      simpa [List.find?_cons_of_neg _ hx] using ih h

/-- The conflict action preserves the business key (true of all four
`ON CONFLICT` actions in the source). -/
def KeyUpd : Prop := ∀ a b, key (upd a b) = key a

/-- Keys of the relation after an upsert that hit a conflict. -/
theorem keys_upsertRow_mem (hk : KeyUpd key upd) {T : List α} {r : α}
    (h : (T.map key).contains (key r) = true) :
    (upsertRow key upd T r).map key = T.map key := by
  unfold upsertRow
  rw [if_pos h, List.map_map]
  apply List.map_congr_left
  intro a _
  by_cases hke : key a = key r
  · simp [Function.comp, hke, hk a r]
  · simp [Function.comp, hke]

/-- Keys of the relation after an upsert that inserted a fresh row. -/
theorem keys_upsertRow_not_mem {T : List α} {r : α}
    (h : ¬ (T.map key).contains (key r) = true) :
    (upsertRow key upd T r).map key = T.map key ++ [key r] := by
  unfold upsertRow
  rw [if_neg h]
  simp

/-- Keys already present survive an upsert. -/
theorem mem_keys_upsertRow (hk : KeyUpd key upd) {T : List α} {k : String}
    (h : k ∈ T.map key) (r : α) : k ∈ (upsertRow key upd T r).map key := by
  by_cases hc : (T.map key).contains (key r) = true
  · rwa [keys_upsertRow_mem key upd hk hc]
  · rw [keys_upsertRow_not_mem key upd hc]
    exact List.mem_append_left _ h

/-- The key of the upserted row is present afterwards. -/
theorem mem_keys_upsertRow_self (hk : KeyUpd key upd) (T : List α) (r : α) :
    key r ∈ (upsertRow key upd T r).map key := by
  by_cases hc : (T.map key).contains (key r) = true
  · rw [keys_upsertRow_mem key upd hk hc]
    exact contains_iff_mem.mp hc
  · rw [keys_upsertRow_not_mem key upd hc]
    simp

/-- Key uniqueness is an invariant of upserts. -/
theorem nodup_keys_upsertRow (hk : KeyUpd key upd) {T : List α}
    (h : (T.map key).Nodup) (r : α) : ((upsertRow key upd T r).map key).Nodup := by
  by_cases hc : (T.map key).contains (key r) = true
  · rwa [keys_upsertRow_mem key upd hk hc]
  · rw [keys_upsertRow_not_mem key upd hc]
    simp only [List.nodup_append, List.nodup_cons, List.nodup_nil]
    refine ⟨h, by simp, ?_⟩
    intro k hkT hkr
    rcases List.mem_singleton.mp hkr with rfl
    exact hc (contains_iff_mem.mpr hkT)

/-- A found row is a member and carries the searched key. -/
theorem findRow_mem {T : List α} {k : String} {a : α}
    (h : findRow key T k = some a) : a ∈ T ∧ key a = k := by
  refine ⟨List.mem_of_find?_eq_some h, ?_⟩
  have := List.find?_some h
  simpa using this

/-- In a key-unique relation every row is found under its own key. -/
theorem findRow_self {T : List α} (hnd : (T.map key).Nodup) {a : α}
    (ha : a ∈ T) : findRow key T (key a) = some a := by
  induction T with
  | nil => cases ha
  | cons x T ih =>
    simp only [List.map_cons, List.nodup_cons] at hnd
    rcases List.mem_cons.mp ha with rfl | ha
    · simp [findRow, List.find?_cons_of_pos]
    · have hne : key x ≠ key a := by
        intro hEq
        exact hnd.1 (hEq ▸ List.mem_map_of_mem key ha)
      unfold findRow
      rw [List.find?_cons_of_neg _ (by simp [hne])]
      exact ih hnd.2 ha

/-- A missing key means `findRow` fails. -/
theorem findRow_eq_none {T : List α} {k : String}
    (h : k ∉ T.map key) : findRow key T k = none := by
  unfold findRow
  rw [List.find?_eq_none]
  intro a ha
  simp only [beq_iff_eq]
  intro rfl_eq
  exact h (rfl_eq ▸ List.mem_map_of_mem key ha)

/-- If `find?` fails on the left part of an append, it continues right. -/
theorem find?_append_none {p : α → Bool} {l : List α} (h : l.find? p = none)
    (l₂ : List α) : (l ++ l₂).find? p = l₂.find? p := by
  induction l with
  | nil => rfl
  | cons x l ih =>
    have hpx : ¬ p x = true := by
      intro hpx
      rw [List.find?_cons_of_pos _ hpx] at h
      cases h
    rw [List.find?_cons_of_neg _ hpx] at h
    simp only [List.cons_append, List.find?_cons_of_neg _ hpx]
    exact ih h

/-- Applying the conflict action to all rows of one key leaves `find?` at any
other key unchanged. -/
theorem find?_map_update_ne (hk : KeyUpd key upd) {r : α} {k : String} (h : key r ≠ k) :
    ∀ T : List α,
      (T.map (fun x => if key x == key r then upd x r else x)).find? (fun x => key x == k)
        = T.find? (fun x => key x == k)
  | [] => rfl
  | x :: T => by
    by_cases hxr : key x = key r
    · have hxk : (key x == k) = false := by simp [hxr, h]
      have h2 : (key (upd x r) == k) = false := by simp [hk x r, hxr, h]
      simp only [List.map_cons, if_pos (by simp [hxr] : (key x == key r) = true),
        List.find?_cons, h2, hxk]
      exact find?_map_update_ne hk h T
    · simp only [List.map_cons,
        if_neg (by simp [hxr] : ¬ (key x == key r) = true), List.find?_cons]
      cases hxk : (key x == k) with
      | true => rfl
      | false => exact find?_map_update_ne hk h T

/-- Applying the conflict action to all rows of one key transforms the first
row found under that key accordingly. -/
theorem find?_map_update_eq (hk : KeyUpd key upd) (r : α) :
    ∀ T : List α,
      (T.map (fun x => if key x == key r then upd x r else x)).find? (fun x => key x == key r)
        = (T.find? (fun x => key x == key r)).map (fun a => upd a r)
  | [] => rfl
  | x :: T => by
    by_cases hxr : key x = key r
    · have hb : (key x == key r) = true := by simp [hxr]
      have hb2 : (key (upd x r) == key r) = true := by simp [hk x r, hxr]
      rw [List.map_cons, if_pos hb]
      simp only [List.find?_cons, hb2, hb]
      simp
    · have hb : ¬ (key x == key r) = true := by simp [hxr]
      have hbf : (key x == key r) = false := by simpa using hb
      rw [List.map_cons, if_neg hb]
      simp only [List.find?_cons, hbf]
      exact find?_map_update_eq hk r T

/-- Lookup after one upsert, at a key other than the upserted one. -/
theorem findRow_upsertRow_ne (hk : KeyUpd key upd) {T : List α} {r : α} {k : String}
    (h : key r ≠ k) : findRow key (upsertRow key upd T r) k = findRow key T k := by
  unfold upsertRow findRow
  by_cases hc : (T.map key).contains (key r) = true
  · rw [if_pos hc]
    exact find?_map_update_ne key upd hk h T
  · rw [if_neg hc]
    cases hT : T.find? (fun x => key x == k) with
    | some a => exact find?_append_left hT [r]
    | none =>
      rw [find?_append_none hT [r]]
      simp [h]

/-- Lookup after one upsert, at the upserted key: the conflict action is
applied to the previously found row, or the fresh row is found. -/
theorem findRow_upsertRow_eq (hk : KeyUpd key upd) (T : List α) (r : α) :
    findRow key (upsertRow key upd T r) (key r) =
      some (match findRow key T (key r) with
            | some a => upd a r
            | none => r) := by
  unfold upsertRow findRow
  by_cases hc : (T.map key).contains (key r) = true
  · rw [if_pos hc]
    rw [find?_map_update_eq key upd hk r T]
    have hmem : key r ∈ T.map key := contains_iff_mem.mp hc
    rcases List.mem_map.mp hmem with ⟨a, ha, hka⟩
    have : (T.find? (fun x => key x == key r)).isSome := by
      rw [List.find?_isSome]
      exact ⟨a, ha, by simp [hka]⟩
    cases hT : T.find? (fun x => key x == key r) with
    | some b => simp
    | none => rw [hT] at this; simp at this
  · rw [if_neg hc]
    have hnone : T.find? (fun x => key x == key r) = none := by
      rw [List.find?_eq_none]
      intro a ha
      simp only [beq_iff_eq]
      intro hEq
      exact hc (contains_iff_mem.mpr (hEq ▸ List.mem_map_of_mem key ha))
    rw [find?_append_none hnone [r], hnone]
    simp
/-- `applyOccs` from a present slot is a fold of the conflict action. -/
theorem applyOccs_some (os : List α) : ∀ a : α,
    applyOccs upd (some a) os = some (os.foldl upd a) := by
  induction os with
  | nil => intro a; rfl
  | cons b os ih => intro a; simp only [applyOccs, List.foldl_cons]; exact ih (upd a b)

/-- Lookup after a batch of upserts: the occurrences of the key in the batch
are applied in order to the slot. -/
theorem findRow_upsertTable (hk : KeyUpd key upd) (k : String) : ∀ (rs : List α) (T : List α),
    findRow key (upsertTable key upd T rs) k =
      applyOccs upd (findRow key T k) (rs.filter (fun b => key b == k))
  | [], T => by simp [upsertTable, applyOccs]
  | b :: bs, T => by
    unfold upsertTable
    simp only [List.foldl_cons, List.filter_cons]
    by_cases hb : key b = k
    · rw [if_pos (by simp [hb])]
      have h1 : findRow key (upsertRow key upd T b) k =
          some (match findRow key T k with | some a => upd a b | none => b) := by
        rw [← hb]; exact findRow_upsertRow_eq key upd hk T b
      have := findRow_upsertTable hk k bs (upsertRow key upd T b)
      unfold upsertTable at this
      rw [this, h1]
      cases hT : findRow key T k with
      | some a => rfl
      | none => rfl
    · rw [if_neg (by simp [hb])]
      have h1 : findRow key (upsertRow key upd T b) k = findRow key T k :=
        findRow_upsertRow_ne key upd hk hb
      have := findRow_upsertTable hk k bs (upsertRow key upd T b)
      unfold upsertTable at this
      rw [this, h1]

/-- Keys present before a batch of upserts are present afterwards. -/
theorem mem_keys_upsertTable_left (hk : KeyUpd key upd) {k : String} :
    ∀ (rs : List α) (T : List α), k ∈ T.map key → k ∈ (upsertTable key upd T rs).map key
  | [], T, h => h
  | b :: bs, T, h => by
    unfold upsertTable
    simp only [List.foldl_cons]
    exact mem_keys_upsertTable_left hk bs _ (mem_keys_upsertRow key upd hk h b)

/-- Keys of the batch are present after the batch of upserts. -/
theorem mem_keys_upsertTable_batch (hk : KeyUpd key upd) {k : String} :
    ∀ (rs : List α) (T : List α), k ∈ rs.map key → k ∈ (upsertTable key upd T rs).map key
  | [], _, h => by cases h
  | b :: bs, T, h => by
    unfold upsertTable
    simp only [List.foldl_cons]
    rcases List.mem_map.mp h with ⟨a, ha, hka⟩
    rcases List.mem_cons.mp ha with rfl | ha2
    · exact mem_keys_upsertTable_left key upd hk bs _
        (hka ▸ mem_keys_upsertRow_self key upd hk T a)
    · exact mem_keys_upsertTable_batch hk bs _ (hka ▸ List.mem_map_of_mem key ha2)

/-- Key uniqueness is an invariant of upsert batches. -/
theorem nodup_keys_upsertTable (hk : KeyUpd key upd) :
    ∀ (rs : List α) (T : List α), (T.map key).Nodup → ((upsertTable key upd T rs).map key).Nodup
  | [], _, h => h
  | b :: bs, T, h => by
    unfold upsertTable
    simp only [List.foldl_cons]
    exact nodup_keys_upsertTable hk bs _ (nodup_keys_upsertRow key upd hk h b)

/-- Membership in the relation after one upsert, in terms of the relation
before: an updated old row, an untouched old row, or the fresh row. -/
theorem mem_upsertRow {T : List α} {r x : α} (hx : x ∈ upsertRow key upd T r) :
    (∃ a ∈ T, x = a ∨ x = upd a r) ∨ x = r := by
  unfold upsertRow at hx
  split at hx
  · rcases List.mem_map.mp hx with ⟨a, ha, hax⟩
    left
    refine ⟨a, ha, ?_⟩
    by_cases hke : (key a == key r) = true
    · right; rw [← hax, if_pos hke]
    · left; rw [← hax, if_neg hke]
  · rcases List.mem_append.mp hx with h | h
    · exact Or.inl ⟨x, h, Or.inl rfl⟩
    · exact Or.inr (List.mem_singleton.mp h)

/-- A property preserved by the conflict action and satisfied by the relation
and the batch holds of every row after the batch of upserts. -/
theorem upsertTable_preserve {P : α → Prop} (hP : ∀ a b, P a → P (upd a b)) :
    ∀ (rs : List α) (T : List α), (∀ a ∈ T, P a) → (∀ b ∈ rs, P b) →
      ∀ x ∈ upsertTable key upd T rs, P x
  | [], T, hT, _, x, hx => hT x hx
  | b :: bs, T, hT, hrs, x, hx => by
    unfold upsertTable at hx
    simp only [List.foldl_cons] at hx
    refine upsertTable_preserve hP bs (upsertRow key upd T b) ?_
      (fun c hc => hrs c (List.mem_cons_of_mem _ hc)) x hx
    intro a ha
    rcases mem_upsertRow key upd ha with ⟨c, hc, hac⟩ | hab
    · cases hac with
      | inl h1 => rw [h1]; exact hT c hc
      | inr h1 => rw [h1]; exact hP c b (hT c hc)
    · rw [hab]; exact hrs b (List.mem_cons_self _ _)

/-- A timestamp column untouched by the conflict action: its maximum over the
relation never decreases under a batch of upserts. -/
theorem listMax_upsertTable (tsf : α → Nat) (hts : ∀ a b, tsf (upd a b) = tsf a) :
    ∀ (rs : List α) (T : List α),
      listMax (T.map tsf) ≤ listMax ((upsertTable key upd T rs).map tsf)
  | [], T => le_refl _
  | b :: bs, T => by
    unfold upsertTable
    simp only [List.foldl_cons]
    refine le_trans ?_ (listMax_upsertTable tsf hts bs (upsertRow key upd T b))
    unfold upsertRow
    split
    · have : (T.map (fun x => if key x == key b then upd x b else x)).map tsf = T.map tsf := by
        rw [List.map_map]
        apply List.map_congr_left
        intro a _
        by_cases hke : key a = key b
        · simp [Function.comp, hke, hts a b]
        · simp [Function.comp, hke]
      rw [this]
    · rw [List.map_append]
      exact listMax_le_append _ _

/-- A batch of keep-old upserts (`DO NOTHING`) never disturbs a found row. -/
theorem findRow_upsertTable_keepOld (hid : ∀ a b, upd a b = a) {k : String} {d : α} :
    ∀ (rs : List α) (T : List α), findRow key T k = some d →
      findRow key (upsertTable key upd T rs) k = some d := by
  intro rs T h
  have hk : KeyUpd key upd := fun a b => by rw [hid a b]
  rw [findRow_upsertTable key upd hk k rs T, h]
  clear h
  generalize rs.filter (fun b => key b == k) = os
  induction os generalizing d with
  | nil => rfl
  | cons b bs ih =>
    simp only [applyOccs, hid d b]
    exact ih
/-- When every batch key is already present, the batch of upserts is the
pointwise application, to each row, of its occurrences in the batch. -/
theorem upsertTable_all_conflicts (hk : KeyUpd key upd) :
    ∀ (rs : List α) (T : List α), (T.map key).Nodup → (∀ b ∈ rs, key b ∈ T.map key) →
      upsertTable key upd T rs =
        T.map (fun a => (rs.filter (fun b => key b == key a)).foldl upd a)
  | [], T, _, _ => by simp [upsertTable]
  | b :: bs, T, hnd, hin => by
    unfold upsertTable
    simp only [List.foldl_cons]
    have hcb : (T.map key).contains (key b) = true :=
      contains_iff_mem.mpr (hin b (List.mem_cons_self _ _))
    have hrow : upsertRow key upd T b =
        T.map (fun x => if key x == key b then upd x b else x) := by
      unfold upsertRow; rw [if_pos hcb]
    have hkeys : (upsertRow key upd T b).map key = T.map key :=
      keys_upsertRow_mem key upd hk hcb
    have hnd' : ((upsertRow key upd T b).map key).Nodup := hkeys ▸ hnd
    have hin' : ∀ c ∈ bs, key c ∈ (upsertRow key upd T b).map key := by
      intro c hc; rw [hkeys]; exact hin c (List.mem_cons_of_mem _ hc)
    have ih := upsertTable_all_conflicts hk bs (upsertRow key upd T b) hnd' hin'
    unfold upsertTable at ih
    rw [ih, hrow, List.map_map]
    apply List.map_congr_left
    intro a _
    simp only [Function.comp]
    by_cases hab : key a = key b
    · have h1 : (if key a == key b then upd a b else a) = upd a b := by simp [hab]
      rw [h1]
      simp only [hk a b, List.filter_cons]
      rw [if_pos (by simp [hab] : (key b == key a) = true)]
      simp only [List.foldl_cons]
    · have h1 : (if key a == key b then upd a b else a) = a := by simp [hab]
      rw [h1, List.filter_cons]
      rw [if_neg (by simp; exact fun h => hab h.symm : ¬ (key b == key a) = true)]

/-- A batch of keep-old upserts whose keys are all present is a no-op. -/
theorem upsertTable_keepOld_noop (hid : ∀ a b, upd a b = a) :
    ∀ (rs : List α) (T : List α), (∀ b ∈ rs, key b ∈ T.map key) →
      upsertTable key upd T rs = T
  | [], T, _ => rfl
  | b :: bs, T, hin => by
    unfold upsertTable
    simp only [List.foldl_cons]
    have hcb : (T.map key).contains (key b) = true :=
      contains_iff_mem.mpr (hin b (List.mem_cons_self _ _))
    have hrow : upsertRow key upd T b = T := by
      unfold upsertRow
      rw [if_pos hcb]
      have : ∀ x ∈ T, (if key x == key b then upd x b else x) = x := by
        intro x _
        by_cases hxb : key x = key b
        · simp [hxb, hid x b]
        · simp [hxb]
      rw [List.map_congr_left this]
      simp
    rw [hrow]
    exact upsertTable_keepOld_noop hid bs T (fun c hc => hin c (List.mem_cons_of_mem _ hc))

/-- A batch of keep-old upserts appends a subset of the batch. -/
theorem upsertTable_keepOld_shape (hid : ∀ a b, upd a b = a) :
    ∀ (rs : List α) (T : List α), ∃ ext, upsertTable key upd T rs = T ++ ext ∧
      ∀ x ∈ ext, x ∈ rs
  | [], T => ⟨[], by simp [upsertTable], by simp⟩
  | b :: bs, T => by
    unfold upsertTable
    simp only [List.foldl_cons]
    obtain ⟨ext, heq, hsub⟩ := upsertTable_keepOld_shape hid bs (upsertRow key upd T b)
    unfold upsertTable at heq
    by_cases hcb : (T.map key).contains (key b) = true
    · have hrow : upsertRow key upd T b = T := by
        unfold upsertRow
        rw [if_pos hcb]
        have : ∀ x ∈ T, (if key x == key b then upd x b else x) = x := by
          intro x _
          by_cases hxb : key x = key b
          · simp [hxb, hid x b]
          · simp [hxb]
        rw [List.map_congr_left this]
        simp
      rw [hrow] at heq ⊢
      exact ⟨ext, heq, fun x hx => List.mem_cons_of_mem _ (hsub x hx)⟩
    · have hrow : upsertRow key upd T b = T ++ [b] := by
        unfold upsertRow; rw [if_neg hcb]
      rw [hrow] at heq ⊢
      refine ⟨b :: ext, by rw [heq]; simp, ?_⟩
      intro x hx
      rcases List.mem_cons.mp hx with rfl | hx2
      · exact List.mem_cons_self _ _
      · exact List.mem_cons_of_mem _ (hsub x hx2)

/-- Filtering preserves key uniqueness. -/
theorem nodup_keys_filter {T : List α} (h : (T.map key).Nodup) (p : α → Bool) :
    ((T.filter p).map key).Nodup :=
  List.Nodup.sublist ((List.filter_sublist T).map key) h

/-- In a key-unique batch, the occurrences of a member's key reduce to that
single member. -/
theorem filter_key_of_nodup {rs : List α} (hnd : (rs.map key).Nodup) {b : α} (hb : b ∈ rs) :
    rs.filter (fun x => key x == key b) = [b] := by
  induction rs with
  | nil => cases hb
  | cons c rs ih =>
    simp only [List.map_cons, List.nodup_cons] at hnd
    rcases List.mem_cons.mp hb with rfl | hb2
    · rw [List.filter_cons, if_pos (by simp)]
      have hnil : rs.filter (fun x => key x == key b) = [] := by
        rw [List.filter_eq_nil_iff]
        intro x hx
        simp only [beq_iff_eq]
        intro hxb
        exact hnd.1 (hxb ▸ List.mem_map_of_mem key hx)
      rw [hnil]
    · have hcb : key c ≠ key b := fun hEq => hnd.1 (hEq ▸ List.mem_map_of_mem key hb2)
      rw [List.filter_cons, if_neg (by simp [hcb])]
      exact ih hnd.2 hb2

/-- The insert loop on the error-free path: the relation receives the whole
batch, `successful_inserts` counts every row, no conflicts are counted and no
errors are recorded. -/
theorem insertLoop_noFail (tag : String) (rows : List α) (T : List α) :
    insertLoop key upd tag (fun _ => none) T rows =
      ⟨upsertTable key upd T rows, rows.length, 0, []⟩ := by
  have go : ∀ (rows : List α) (o : LoopOut α),
      rows.foldl (fun o r => { o with table := upsertRow key upd o.table r, ok := o.ok + 1 }) o
        = ⟨upsertTable key upd o.table rows, o.ok + rows.length, o.conflicts, o.errors⟩ := by
    intro rows
    induction rows with
    | nil => intro o; simp [upsertTable]
    | cons r rows ih =>
      intro o
      simp only [List.foldl_cons]
      rw [ih]
      have harith : o.ok + 1 + rows.length = o.ok + (rows.length + 1) := by omega
      simp [upsertTable, List.foldl_cons, harith]
  have hdef : insertLoop key upd tag (fun _ => none) T rows =
      rows.foldl (fun o r => { o with table := upsertRow key upd o.table r, ok := o.ok + 1 })
        ⟨T, 0, 0, []⟩ := rfl
  rw [hdef, go]
  simp

end GenericTable

/-- Characterisation of an error-free order run in terms of the named stage
functions. -/
theorem runOrder_unfold (raws : List OrderRaw) (t tw : Nat) (s : DW) :
    runOrder raws t tw s =
      (if (orderSelected raws t s).isEmpty then
        ({ s with copr13 := orderStagedTable raws t s },
         ⟨(normalizeOrder t raws).length, 0, 0, []⟩)
      else
        ({ s with copr13 := orderStagedTable raws t s,
                  fact_order := upsertTable (fun f => f.order_code) updFactOrder s.fact_order
                    (promoteBatchOrder tw (orderSelected raws t s)),
                  dim_factory := updateFactoryList s.dim_factory (orderStagedTable raws t s),
                  dim_product := updateProductList s.dim_product (orderStagedTable raws t s) },
         ⟨(normalizeOrder t raws).length,
          (promoteBatchOrder tw (orderSelected raws t s)).length, 0, []⟩)) := by
  unfold runOrder orderSelected orderStagedTable stagingLoopOrder factLoopOrder
  simp only [insertLoop_noFail]
  split <;> simp

/-- Characterisation of an error-free sales run in terms of the named stage
functions. -/
theorem runSales_unfold (raws : List SalesRaw) (t tw : Nat) (s : DW) :
    runSales raws t tw s =
      (if (salesSelected raws t s).isEmpty then
        ({ s with copr23 := salesStagedTable raws t s },
         ⟨(normalizeSales t raws).length, 0, 0, []⟩)
      else
        ({ s with copr23 := salesStagedTable raws t s,
                  fact_sales := upsertTable (fun f => f.sales_code) updFactSales s.fact_sales
                    (promoteBatchSales tw (salesSelected raws t s)) },
         ⟨(normalizeSales t raws).length,
          (promoteBatchSales tw (salesSelected raws t s)).length, 0, []⟩)) := by
  unfold runSales salesSelected salesStagedTable stagingLoopSales factLoopSales
  simp only [insertLoop_noFail]
  split <;> simp

/-- A chain of `copr13` conflict updates rewrites only the two quantity
measures and the import timestamp, taking them from the last update. -/
theorem foldl_updStagingOrder_last :
    ∀ (os : List StagingOrder), os ≠ [] → ∀ a : StagingOrder,
      ∃ b, os.getLast? = some b ∧
        os.foldl updStagingOrder a =
          { a with order_quantity := b.order_quantity,
                   delivered_quantity := b.delivered_quantity,
                   import_timestamp := b.import_timestamp } := by
  intro os
  induction os using List.reverseRecOn with
  | nil => intro h; exact absurd rfl h
  | append_singleton l b ih =>
    intro _ a
    refine ⟨b, List.getLast?_concat l, ?_⟩
    rw [List.foldl_append]
    rcases eq_or_ne l [] with rfl | hl
    · rfl
    · obtain ⟨c, _, heq⟩ := ih hl a
      rw [heq]
      rfl

/-- A chain of `fact_sales` conflict updates rewrites only the quantity
measure and the warehouse timestamp, taking them from the last update. -/
theorem foldl_updFactSales_last :
    ∀ (os : List FactSales), os ≠ [] → ∀ a : FactSales,
      ∃ b, os.getLast? = some b ∧
        os.foldl updFactSales a =
          { a with sales_quantity := b.sales_quantity,
                   import_wh_timestamp := b.import_wh_timestamp } := by
  intro os
  induction os using List.reverseRecOn with
  | nil => intro h; exact absurd rfl h
  | append_singleton l b ih =>
    intro _ a
    refine ⟨b, List.getLast?_concat l, ?_⟩
    rw [List.foldl_append]
    rcases eq_or_ne l [] with rfl | hl
    · rfl
    · obtain ⟨c, _, heq⟩ := ih hl a
      rw [heq]
      rfl

/-- A chain of `copr23` conflict actions (`DO NOTHING`) is the identity. -/
theorem foldl_updStagingSales (os : List StagingSales) (a : StagingSales) :
    os.foldl updStagingSales a = a := by
  induction os with
  | nil => rfl
  | cons b os ih => simpa [updStagingSales] using ih

/-- The slot left by a single conflicting `fact_order` insert carries the
measures of the inserted row. -/
theorem applyOccs_updFactOrder_single (o : Option FactOrder) (b : FactOrder) :
    ∃ x, applyOccs updFactOrder o [b] = some x ∧
      x.order_quantity = b.order_quantity ∧
      x.delivered_quantity = b.delivered_quantity := by
  cases o with
  | none => exact ⟨b, rfl, rfl, rfl⟩
  | some a => exact ⟨updFactOrder a b, rfl, rfl, rfl⟩

/-- The slot left by a nonempty chain of conflicting `fact_sales` inserts
carries the measure of the last inserted row. -/
theorem applyOccs_updFactSales_last {os : List FactSales} (hne : os ≠ [])
    (o : Option FactSales) :
    ∃ x b, applyOccs updFactSales o os = some x ∧ os.getLast? = some b ∧
      x.sales_quantity = b.sales_quantity := by
  cases o with
  | some a =>
    rw [applyOccs_some]
    obtain ⟨b, hb, heq⟩ := foldl_updFactSales_last os hne a
    exact ⟨_, b, rfl, hb, by rw [heq]⟩
  | none =>
    cases os with
    | nil => exact absurd rfl hne
    | cons c cs =>
      simp only [applyOccs, applyOccs_some]
      rcases eq_or_ne cs [] with rfl | hcs
      · exact ⟨c, c, rfl, rfl, rfl⟩
      · obtain ⟨b, hb, heq⟩ := foldl_updFactSales_last cs hcs c
        refine ⟨_, b, rfl, ?_, by rw [heq]⟩
        rw [List.getLast?_cons, hb]
        cases cs with
        | nil => exact absurd rfl hcs
        | cons d ds => simp [List.getLast?_cons]

/-- The slot left by a nonempty chain of conflicting `copr13` staging inserts
carries the measures and import timestamp of the last inserted row, and keeps
every other column of the original slot (or of the first insert, when the
slot was empty). -/
theorem applyOccs_updStagingOrder_last {os : List StagingOrder} (hne : os ≠ [])
    (o : Option StagingOrder) :
    ∃ x b, applyOccs updStagingOrder o os = some x ∧ os.getLast? = some b ∧
      x.order_quantity = b.order_quantity ∧
      x.delivered_quantity = b.delivered_quantity ∧
      x.import_timestamp = b.import_timestamp := by
  cases o with
  | some a =>
    rw [applyOccs_some]
    obtain ⟨b, hb, heq⟩ := foldl_updStagingOrder_last os hne a
    exact ⟨_, b, rfl, hb, by rw [heq], by rw [heq], by rw [heq]⟩
  | none =>
    cases os with
    | nil => exact absurd rfl hne
    | cons c cs =>
      simp only [applyOccs, applyOccs_some]
      rcases eq_or_ne cs [] with rfl | hcs
      · exact ⟨c, c, rfl, rfl, rfl, rfl, rfl⟩
      · obtain ⟨b, hb, heq⟩ := foldl_updStagingOrder_last cs hcs c
        refine ⟨_, b, rfl, ?_, by rw [heq], by rw [heq], by rw [heq]⟩
        rw [List.getLast?_cons, hb]
        cases cs with
        | nil => exact absurd rfl hcs
        | cons d ds => simp [List.getLast?_cons]

/-- `getLast?` commutes with `map`. -/
theorem getLast?_map {α β : Type} (f : α → β) : ∀ l : List α,
    (l.map f).getLast? = l.getLast?.map f
  | [] => rfl
  | [a] => rfl
  | a :: b :: l => by
    simp only [List.map_cons, List.getLast?_cons_cons]
    rw [← List.map_cons, getLast?_map f (b :: l)]

/-- Normalising the same order extract at a later time only re-stamps
the import timestamps. -/
theorem normalizeOrder_stamp (t₁ t₂ : Nat) (raws : List OrderRaw) :
    normalizeOrder t₂ raws = (normalizeOrder t₁ raws).map (stampO t₂) := by
  induction raws with
  | nil => rfl
  | cons r raws ih =>
    unfold normalizeOrder at *
    simp only [List.filterMap_cons]
    cases hoc : r.order_code with
    | none => exact ih
    | some oc =>
      cases hno : r.numerical_order with
      | none => exact ih
      | some n => simp only [List.map_cons, ih, stampO]

/-- Every normalised order row is stamped with the normalisation time. -/
theorem normalizeOrder_ts (t : Nat) (raws : List OrderRaw) :
    ∀ r ∈ normalizeOrder t raws, r.import_timestamp = t := by
  intro r hr
  rcases List.mem_filterMap.mp hr with ⟨x, _, hx⟩
  cases hoc : x.order_code with
  | none => rw [hoc] at hx; cases hx
  | some oc =>
    cases hno : x.numerical_order with
    | none => rw [hoc, hno] at hx; cases hx
    | some n =>
      rw [hoc, hno] at hx
      cases hx
      rfl

/-- Normalising the same sales extract at a later time only re-stamps
the import timestamps. -/
theorem normSalesGo_stamp (t₁ t₂ : Nat) :
    ∀ (rows : List SalesRaw) (seen : List (String × Nat)),
      normSalesGo t₂ seen rows = (normSalesGo t₁ seen rows).map (stampS t₂)
  | [], _ => rfl
  | r :: rows, seen => by
    unfold normSalesGo
    cases hsc : r.sales_code with
    | none => exact normSalesGo_stamp t₁ t₂ rows seen
    | some nk =>
      simp only [List.map_cons]
      rw [normSalesGo_stamp t₁ t₂ rows]
      rfl

/-- Every normalised sales row is stamped with the normalisation time. -/
theorem normSalesGo_ts (t : Nat) :
    ∀ (rows : List SalesRaw) (seen : List (String × Nat)),
      ∀ r ∈ normSalesGo t seen rows, r.import_timestamp = t
  | [], _, r, hr => by cases hr
  | x :: rows, seen, r, hr => by
    unfold normSalesGo at hr
    cases hsc : x.sales_code with
    | none =>
      rw [hsc] at hr
      exact normSalesGo_ts t rows seen r hr
    | some nk =>
      rw [hsc] at hr
      rcases List.mem_cons.mp hr with rfl | hr2
      · rfl
      · exact normSalesGo_ts t rows _ r hr2

/-- Full characterisation of the per-row insert loop under an arbitrary
failure oracle: failing rows contribute exactly one error entry and nothing
else, non-failing rows are upserted in order and counted, and the conflicts
counter never moves. -/
theorem insertLoop_characterize {α : Type} (key : α → String) (upd : α → α → α)
    (tag : String) (fails : α → Option String) :
    ∀ (rows : List α) (T : List α),
      insertLoop key upd tag fails T rows =
        ⟨upsertTable key upd T (rows.filter (fun r => (fails r).isNone)),
         (rows.filter (fun r => (fails r).isNone)).length, 0,
         rows.filterMap (fun r => (fails r).map (fun m => tag ++ key r ++ ": " ++ m))⟩ := by
  have go : ∀ (rows : List α) (o : LoopOut α),
      rows.foldl (fun o r =>
        match fails r with
        | some m => { o with errors := o.errors ++ [tag ++ key r ++ ": " ++ m] }
        | none => { o with table := upsertRow key upd o.table r, ok := o.ok + 1 }) o =
      ⟨upsertTable key upd o.table (rows.filter (fun r => (fails r).isNone)),
       o.ok + (rows.filter (fun r => (fails r).isNone)).length, o.conflicts,
       o.errors ++ rows.filterMap (fun r => (fails r).map (fun m => tag ++ key r ++ ": " ++ m))⟩ := by
    intro rows
    induction rows with
    | nil => intro o; simp [upsertTable]
    | cons r rows ih =>
      intro o
      simp only [List.foldl_cons, List.filter_cons, List.filterMap_cons]
      cases hf : fails r with
      | some m =>
        simp only [hf, Option.isNone_some, Option.map_some']
        rw [ih]
        simp
      | none =>
        simp only [hf, Option.isNone_none, Option.map_none']
        rw [ih]
        have harith : o.ok + 1 + (rows.filter (fun r => (fails r).isNone)).length =
            o.ok + ((rows.filter (fun r => (fails r).isNone)).length + 1) := by omega
        simp [upsertTable, List.foldl_cons, harith]
  intro rows T
  have hdef : insertLoop key upd tag fails T rows =
      rows.foldl (fun o r =>
        match fails r with
        | some m => { o with errors := o.errors ++ [tag ++ key r ++ ": " ++ m] }
        | none => { o with table := upsertRow key upd o.table r, ok := o.ok + 1 })
        ⟨T, 0, 0, []⟩ := rfl
  rw [hdef, go]
  simp

/-- C10: the text normalisation of both processors is `str.replace('.0', '')`
(and SQL `REPLACE(..., '.0', '')`), which removes every occurrence of the
substring `".0"`, not only a trailing one.  The float artifact `"123.0"` is
correctly reduced to `"123"`, but a value containing `".0"` only as an
interior substring, such as `"2.05"`, which the claim (and the stated intent
of coercing float-typed cells back to integer-string form) requires to be
left unchanged, is mangled to `"25"`. -/
theorem c10_clean_text_interior :
    cleanText "123.0" = "123" ∧ cleanText "2.05" = "25" ∧ "2.05" ≠ "25" :=
  ⟨by decide, by decide, by decide⟩

/-- C8 (amended): each record's outcome is exactly one of
executed (inserted or conflict-resolved) / failed; a failing insert only
appends its error message and never prevents the remaining rows of the batch
from being staged (the final relation receives exactly the non-failing rows,
in order); `staging_rows` counts every successfully executed statement —
conflict-updates included — while the `conflicts` counter is always 0,
because the statement's `ON CONFLICT` clause resolves business-key
collisions inside the statement instead of raising a unique-violation
error.  Both the order and the sales staging loops are covered. -/
theorem c8_row_isolation_amended (failsO : StagingOrder → Option String)
    (failsS : StagingSales → Option String)
    (TO rowsO : List StagingOrder) (TS rowsS : List StagingSales) :
    ((stagingLoopOrder failsO TO rowsO).table =
        upsertTable (fun r => r.order_code) updStagingOrder TO
          (rowsO.filter (fun r => (failsO r).isNone)) ∧
      (stagingLoopOrder failsO TO rowsO).ok =
        (rowsO.filter (fun r => (failsO r).isNone)).length ∧
      (stagingLoopOrder failsO TO rowsO).conflicts = 0 ∧
      (stagingLoopOrder failsO TO rowsO).errors =
        rowsO.filterMap (fun r => (failsO r).map
          (fun m => "Staging insert error for " ++ r.order_code ++ ": " ++ m))) ∧
    ((stagingLoopSales failsS TS rowsS).table =
        upsertTable (fun r => r.sales_code) updStagingSales TS
          (rowsS.filter (fun r => (failsS r).isNone)) ∧
      (stagingLoopSales failsS TS rowsS).ok =
        (rowsS.filter (fun r => (failsS r).isNone)).length ∧
      (stagingLoopSales failsS TS rowsS).conflicts = 0 ∧
      (stagingLoopSales failsS TS rowsS).errors =
        rowsS.filterMap (fun r => (failsS r).map
          (fun m => "Staging insert error for " ++ r.sales_code ++ ": " ++ m))) := by
  constructor
  · unfold stagingLoopOrder
    rw [insertLoop_characterize]
    exact ⟨rfl, rfl, rfl, rfl⟩
  · unfold stagingLoopSales
    rw [insertLoop_characterize]
    exact ⟨rfl, rfl, rfl, rfl⟩

/-- C8 (counterexample): a batch consisting of one record whose business key
already exists in the staging relation executes as a conflict-update: the
run report counts it in `staging_rows` (1, not 0) and reports `conflicts = 0`
(not 1), refuting the claim that `conflicts` equals the number of records
that hit a business-key conflict and that `staging_rows` counts only fresh
inserts. -/
theorem c8_conflict_counter_counterexample :
    (stagingLoopOrder (fun _ => none)
        [⟨"2201-0001", none, none, none, none, none, none, none, some "q",
          some 5, some 2, 1⟩]
        [⟨"2201-0001", none, none, none, none, none, none, none, some "q",
          some 7, some 3, 2⟩]).conflicts = 0 ∧
    (stagingLoopOrder (fun _ => none)
        [⟨"2201-0001", none, none, none, none, none, none, none, some "q",
          some 5, some 2, 1⟩]
        [⟨"2201-0001", none, none, none, none, none, none, none, some "q",
          some 7, some 3, 2⟩]).ok = 1 ∧
    (⟨"2201-0001", none, none, none, none, none, none, none, some "q",
      some 7, some 3, 2⟩ : StagingOrder).order_code ∈
      [(⟨"2201-0001", none, none, none, none, none, none, none, some "q",
        some 5, some 2, 1⟩ : StagingOrder)].map (fun r => r.order_code) ∧
    (0 : Nat) ≠ 1 := by
  refine ⟨by decide, by decide, by decide, by decide⟩

/-- A single keep-old (`DO NOTHING`) upsert whose key is already present is a
no-op. -/
theorem upsertRow_keepOld {α : Type} (key : α → String) (upd : α → α → α)
    (hid : ∀ a b, upd a b = a) {T : List α} {r : α} (h : key r ∈ T.map key) :
    upsertRow key upd T r = T := by
  unfold upsertRow
  rw [if_pos (contains_iff_mem.mpr h)]
  have : ∀ x ∈ T, (if key x == key r then upd x r else x) = x := by
    intro x _
    by_cases hxr : key x = key r
    · simp [hxr, hid x r]
    · simp [hxr]
  rw [List.map_congr_left this]
  simp

/-- C4 (amended): re-ingesting a staging record whose business key already
exists leaves exactly one row for that key in both staging relations (the key
column is unchanged and stays duplicate-free), but the conflict behaviour
differs by kind: the order staging insert (`ON CONFLICT ... DO UPDATE`)
rewrites `order_quantity`, `delivered_quantity` and refreshes
`import_timestamp` on the existing row, while the sales staging insert
(`ON CONFLICT ... DO NOTHING`) leaves the existing row entirely unchanged —
it neither updates the measure nor refreshes `import_timestamp`. -/
theorem c4_staging_reingest_amended
    (TO : List StagingOrder) (r a : StagingOrder)
    (hndO : (TO.map (fun x => x.order_code)).Nodup)
    (hfind : findRow (fun x => x.order_code) TO r.order_code = some a)
    (TS : List StagingSales) (rs : StagingSales)
    (hmemS : rs.sales_code ∈ TS.map (fun x => x.sales_code)) :
    (findRow (fun x => x.order_code)
        (upsertRow (fun x => x.order_code) updStagingOrder TO r) r.order_code =
        some { a with order_quantity := r.order_quantity,
                      delivered_quantity := r.delivered_quantity,
                      import_timestamp := r.import_timestamp } ∧
      (upsertRow (fun x => x.order_code) updStagingOrder TO r).map (fun x => x.order_code) =
        TO.map (fun x => x.order_code) ∧
      ((upsertRow (fun x => x.order_code) updStagingOrder TO r).map
        (fun x => x.order_code)).Nodup) ∧
    upsertRow (fun x => x.sales_code) updStagingSales TS rs = TS := by
  have hkO : KeyUpd (fun x : StagingOrder => x.order_code) updStagingOrder :=
    fun _ _ => rfl
  have hmemO : r.order_code ∈ TO.map (fun x => x.order_code) := by
    obtain ⟨ha, hkey⟩ := findRow_mem (fun x : StagingOrder => x.order_code) hfind
    exact hkey ▸ List.mem_map_of_mem _ ha
  refine ⟨⟨?_, ?_, ?_⟩, ?_⟩
  · rw [findRow_upsertRow_eq (fun x : StagingOrder => x.order_code) updStagingOrder hkO TO r,
      hfind]
    rfl
  · exact keys_upsertRow_mem _ _ hkO (contains_iff_mem.mpr hmemO)
  · exact nodup_keys_upsertRow _ _ hkO hndO r
  · exact upsertRow_keepOld _ _ (fun _ _ => rfl) hmemS

/-- C4 (witness): the amended statement applied to one-row staging relations
with a re-ingested record carrying new quantities and a newer timestamp. -/
theorem c4_staging_reingest_amended_witness :
    (findRow (fun x => x.order_code)
        (upsertRow (fun x => x.order_code) updStagingOrder
          [⟨"2201-0001", none, none, none, none, none, none, none, some "q",
            some 5, some 2, 1⟩]
          ⟨"2201-0001", none, none, none, none, none, none, none, some "q",
            some 7, some 3, 2⟩) "2201-0001" =
        some ⟨"2201-0001", none, none, none, none, none, none, none, some "q",
          some 7, some 3, 2⟩ ∧
      (upsertRow (fun x => x.order_code) updStagingOrder
          [⟨"2201-0001", none, none, none, none, none, none, none, some "q",
            some 5, some 2, 1⟩]
          ⟨"2201-0001", none, none, none, none, none, none, none, some "q",
            some 7, some 3, 2⟩).map (fun x => x.order_code) = ["2201-0001"] ∧
      ((upsertRow (fun x => x.order_code) updStagingOrder
          [⟨"2201-0001", none, none, none, none, none, none, none, some "q",
            some 5, some 2, 1⟩]
          ⟨"2201-0001", none, none, none, none, none, none, none, some "q",
            some 7, some 3, 2⟩).map (fun x => x.order_code)).Nodup) ∧
    upsertRow (fun x => x.sales_code) updStagingSales
        [⟨"2301-0001", none, "F", none, none, none, none, some "q", none,
          some 5, none, 1⟩]
        ⟨"2301-0001", none, "F", none, none, none, none, some "q", none,
          some 7, none, 2⟩ =
      [⟨"2301-0001", none, "F", none, none, none, none, some "q", none,
        some 5, none, 1⟩] :=
  c4_staging_reingest_amended
    [⟨"2201-0001", none, none, none, none, none, none, none, some "q", some 5, some 2, 1⟩]
    ⟨"2201-0001", none, none, none, none, none, none, none, some "q", some 7, some 3, 2⟩
    ⟨"2201-0001", none, none, none, none, none, none, none, some "q", some 5, some 2, 1⟩
    (by decide) (by decide)
    [⟨"2301-0001", none, "F", none, none, none, none, some "q", none, some 5, none, 1⟩]
    ⟨"2301-0001", none, "F", none, none, none, none, some "q", none, some 7, none, 2⟩
    (by decide)

/-- C4 (counterexample): re-ingesting an existing sales staging key with a
different quantity and a newer timestamp leaves the staging relation
completely unchanged — the measure is not updated (it stays 5, not 7) and
`import_timestamp` is not refreshed (it stays 1, not 2), refuting the claim
that both record kinds update the mutable measures and refresh the
timestamp. -/
theorem c4_sales_staging_counterexample :
    (stagingLoopSales (fun _ => none)
        [⟨"2301-0001", none, "F", none, none, none, none, some "q", none,
          some 5, none, 1⟩]
        [⟨"2301-0001", none, "F", none, none, none, none, some "q", none,
          some 7, none, 2⟩]).table =
      [⟨"2301-0001", none, "F", none, none, none, none, some "q", none,
        some 5, none, 1⟩] ∧
    (5 : Int) ≠ 7 ∧ (1 : Nat) ≠ 2 :=
  ⟨by decide, by decide, by decide⟩

/-- C9: dimension rows are never updated by any run.  An order run inserts
dimension candidates with `ON CONFLICT DO NOTHING`, so a factory code or
product name already present keeps its exact row (including its descriptive
name), whatever the processed extract contains; a sales run does not touch
the dimension relations at all. -/
theorem c9_dim_first_write_wins (raws : List OrderRaw) (raws2 : List SalesRaw)
    (t tw t2 tw2 : Nat) (s : DW) (k kp : String) (d : DimFactory) (dp : DimProduct)
    (hf : findRow (fun x => x.factory_code) s.dim_factory k = some d)
    (hp : findRow (fun x => x.product_name) s.dim_product kp = some dp) :
    (findRow (fun x => x.factory_code) ((runOrder raws t tw s).1).dim_factory k = some d ∧
     findRow (fun x => x.product_name) ((runOrder raws t tw s).1).dim_product kp = some dp) ∧
    (((runSales raws2 t2 tw2 s).1).dim_factory = s.dim_factory ∧
     ((runSales raws2 t2 tw2 s).1).dim_product = s.dim_product) := by
  refine ⟨?_, ?_⟩
  · rw [runOrder_unfold]
    split
    · exact ⟨hf, hp⟩
    · constructor
      · exact findRow_upsertTable_keepOld _ _ (fun _ _ => rfl) _ s.dim_factory hf
      · exact findRow_upsertTable_keepOld _ _ (fun _ _ => rfl) _ s.dim_product hp
  · rw [runSales_unfold]
    split
    · exact ⟨rfl, rfl⟩
    · exact ⟨rfl, rfl⟩

/-- C9 (witness): a warehouse whose `dim_factory` already knows code `"F"`
under name `"Old"`, processed against an order extract that carries `"F"`
under the different name `"New"`: the dimension row keeps name `"Old"`. -/
theorem c9_dim_first_write_wins_witness :
    (findRow (fun x => x.factory_code)
        ((runOrder
          [⟨some 3, some "2201", some "F", some "New", none, some "P", some "q",
            some 5, some 2, none, some 1⟩] 7 8
          ⟨[], [], [], [], [⟨"F", some "Old", true, false, none⟩], [⟨"P"⟩]⟩).1).dim_factory "F" =
        some ⟨"F", some "Old", true, false, none⟩ ∧
     findRow (fun x => x.product_name)
        ((runOrder
          [⟨some 3, some "2201", some "F", some "New", none, some "P", some "q",
            some 5, some 2, none, some 1⟩] 7 8
          ⟨[], [], [], [], [⟨"F", some "Old", true, false, none⟩], [⟨"P"⟩]⟩).1).dim_product "P" =
        some ⟨"P"⟩) ∧
    (((runSales [] 7 8
        ⟨[], [], [], [], [⟨"F", some "Old", true, false, none⟩], [⟨"P"⟩]⟩).1).dim_factory =
        [⟨"F", some "Old", true, false, none⟩] ∧
     ((runSales [] 7 8
        ⟨[], [], [], [], [⟨"F", some "Old", true, false, none⟩], [⟨"P"⟩]⟩).1).dim_product =
        [⟨"P"⟩]) :=
  c9_dim_first_write_wins
    [⟨some 3, some "2201", some "F", some "New", none, some "P", some "q",
      some 5, some 2, none, some 1⟩] [] 7 8 7 8
    ⟨[], [], [], [], [⟨"F", some "Old", true, false, none⟩], [⟨"P"⟩]⟩
    "F" "P" ⟨"F", some "Old", true, false, none⟩ ⟨"P"⟩ (by decide) (by decide)

/-- `listMax` of a cons. -/
theorem listMax_cons (x : Nat) (l : List Nat) : listMax (x :: l) = max x (listMax l) := by
  unfold listMax sentinel1900
  simp only [List.foldl_cons]
  rw [foldl_max_shift]
  omega

/-- `listMax` of a nonempty list is attained by an element. -/
theorem listMax_mem : ∀ {l : List Nat}, l ≠ [] → listMax l ∈ l
  | [], h => absurd rfl h
  | x :: l, _ => by
    rcases eq_or_ne l [] with rfl | hl
    · simp [listMax_cons, listMax, sentinel1900]
    · rw [listMax_cons]
      rcases le_total (listMax l) x with h | h
      · rw [max_eq_left h]; exact List.mem_cons_self _ _
      · rw [max_eq_right h]; exact List.mem_cons_of_mem _ (listMax_mem hl)

/-- C2: the promotion stage computes the watermark as
`COALESCE(MAX(import_timestamp), '1900-01-01')` over the target fact relation
(the sentinel exactly when the relation is empty, otherwise an attained
maximum) and selects exactly the staging rows strictly newer than it; the
fact relation's watermark never decreases across a run (conflict updates do
not touch `import_timestamp`, inserts only add values), so staging rows at or
below the previous watermark are never selected by the following run.  Both
kinds are covered. -/
theorem c2_watermark_contract (S : List StagingOrder) (F : List FactOrder)
    (SS : List StagingSales) (FS : List FactSales)
    (raws : List OrderRaw) (t tw : Nat) (s : DW) (raws2 : List SalesRaw) (t2 tw2 : Nat) :
    (watermarkOrder [] = sentinel1900 ∧
     (∀ f ∈ F, f.import_timestamp ≤ watermarkOrder F) ∧
     (F ≠ [] → watermarkOrder F ∈ F.map (fun f => f.import_timestamp)) ∧
     (∀ r : StagingOrder, r ∈ selectNewOrder S F ↔
        r ∈ S ∧ watermarkOrder F < r.import_timestamp)) ∧
    (watermarkSales [] = sentinel1900 ∧
     (∀ f ∈ FS, f.import_timestamp ≤ watermarkSales FS) ∧
     (FS ≠ [] → watermarkSales FS ∈ FS.map (fun f => f.import_timestamp)) ∧
     (∀ r : StagingSales, r ∈ selectNewSales SS FS ↔
        r ∈ SS ∧ watermarkSales FS < r.import_timestamp)) ∧
    (watermarkOrder s.fact_order ≤ watermarkOrder ((runOrder raws t tw s).1).fact_order ∧
     watermarkSales s.fact_sales ≤ watermarkSales ((runSales raws2 t2 tw2 s).1).fact_sales) ∧
    ((∀ r : StagingOrder, r.import_timestamp ≤ watermarkOrder s.fact_order →
        r ∉ selectNewOrder S ((runOrder raws t tw s).1).fact_order) ∧
     (∀ r : StagingSales, r.import_timestamp ≤ watermarkSales s.fact_sales →
        r ∉ selectNewSales SS ((runSales raws2 t2 tw2 s).1).fact_sales)) := by
  have hmonoO : watermarkOrder s.fact_order ≤
      watermarkOrder ((runOrder raws t tw s).1).fact_order := by
    rw [runOrder_unfold]
    split
    · exact le_refl _
    · exact listMax_upsertTable (fun f => f.order_code) updFactOrder
        (fun f => f.import_timestamp) (fun _ _ => rfl) _ s.fact_order
  have hmonoS : watermarkSales s.fact_sales ≤
      watermarkSales ((runSales raws2 t2 tw2 s).1).fact_sales := by
    rw [runSales_unfold]
    split
    · exact le_refl _
    · exact listMax_upsertTable (fun f => f.sales_code) updFactSales
        (fun f => f.import_timestamp) (fun _ _ => rfl) _ s.fact_sales
  refine ⟨⟨rfl, ?_, ?_, ?_⟩, ⟨rfl, ?_, ?_, ?_⟩, ⟨hmonoO, hmonoS⟩, ?_, ?_⟩
  · intro f hf
    exact le_listMax (List.mem_map_of_mem _ hf)
  · intro hne
    exact listMax_mem (by simpa using hne)
  · intro r
    simp [selectNewOrder, List.mem_filter]
  · intro f hf
    exact le_listMax (List.mem_map_of_mem _ hf)
  · intro hne
    exact listMax_mem (by simpa using hne)
  · intro r
    simp [selectNewSales, List.mem_filter]
  · intro r hr hmem
    have := (List.mem_filter.mp hmem).2
    simp only [decide_eq_true_eq] at this
    omega
  · intro r hr hmem
    have := (List.mem_filter.mp hmem).2
    simp only [decide_eq_true_eq] at this
    omega

/-- C2 (witness): the watermark contract instantiated at concrete inputs. -/
theorem c2_watermark_contract_witness :
    (watermarkOrder [] = sentinel1900 ∧
     (∀ f ∈ ([] : List FactOrder), f.import_timestamp ≤ watermarkOrder []) ∧
     (([] : List FactOrder) ≠ [] →
        watermarkOrder [] ∈ ([] : List FactOrder).map (fun f => f.import_timestamp)) ∧
     (∀ r : StagingOrder, r ∈ selectNewOrder [] [] ↔
        r ∈ ([] : List StagingOrder) ∧ watermarkOrder [] < r.import_timestamp)) ∧
    (watermarkSales [] = sentinel1900 ∧
     (∀ f ∈ ([] : List FactSales), f.import_timestamp ≤ watermarkSales []) ∧
     (([] : List FactSales) ≠ [] →
        watermarkSales [] ∈ ([] : List FactSales).map (fun f => f.import_timestamp)) ∧
     (∀ r : StagingSales, r ∈ selectNewSales [] [] ↔
        r ∈ ([] : List StagingSales) ∧ watermarkSales [] < r.import_timestamp)) ∧
    (watermarkOrder emptyDW.fact_order ≤
        watermarkOrder ((runOrder [] 1 2 emptyDW).1).fact_order ∧
     watermarkSales emptyDW.fact_sales ≤
        watermarkSales ((runSales [] 1 2 emptyDW).1).fact_sales) ∧
    ((∀ r : StagingOrder, r.import_timestamp ≤ watermarkOrder emptyDW.fact_order →
        r ∉ selectNewOrder [] ((runOrder [] 1 2 emptyDW).1).fact_order) ∧
     (∀ r : StagingSales, r.import_timestamp ≤ watermarkSales emptyDW.fact_sales →
        r ∉ selectNewSales [] ((runSales [] 1 2 emptyDW).1).fact_sales)) :=
  c2_watermark_contract [] [] [] [] [] 1 2 emptyDW [] 1 2

/-- `stripDot0` emits a non-dot head unchanged. -/
theorem stripDot0_cons_ne {c : Char} (h : c ≠ '.') :
    ∀ l : List Char, stripDot0 (c :: l) = c :: stripDot0 l
  | [] => rfl
  | c₂ :: t => by
    conv_lhs => rw [stripDot0]
    rw [if_neg (by simp [h] : ¬(c = '.' ∧ c₂ = '0'))]

/-- `stripDot0` leaves a dot-free block unchanged (no `".0"` pair can start
inside it or straddle its right edge). -/
theorem stripDot0_append_no_dot {pre : List Char} (h : ∀ c ∈ pre, c ≠ '.') :
    ∀ rest : List Char, stripDot0 (pre ++ rest) = pre ++ stripDot0 rest := by
  induction pre with
  | nil => intro rest; rfl
  | cons c pre ih =>
    intro rest
    simp only [List.cons_append]
    rw [stripDot0_cons_ne (h c (List.mem_cons_self _ _))]
    rw [ih (fun d hd => h d (List.mem_cons_of_mem _ hd)) rest]

/-- `takeWhile` passes over a block whose members all satisfy the predicate. -/
theorem takeWhile_append_all {α : Type} {p : α → Bool} {l₁ : List α}
    (h : ∀ c ∈ l₁, p c = true) :
    ∀ l₂ : List α, (l₁ ++ l₂).takeWhile p = l₁ ++ l₂.takeWhile p := by
  induction l₁ with
  | nil => intro l₂; rfl
  | cons c l₁ ih =>
    intro l₂
    simp only [List.cons_append, List.takeWhile_cons, h c (List.mem_cons_self _ _)]
    rw [ih (fun d hd => h d (List.mem_cons_of_mem _ hd)) l₂]
    simp

/-- The head of `dropWhile`, when any, fails the predicate. -/
theorem dropWhile_head_false {α : Type} {p : α → Bool} :
    ∀ l : List α, l.dropWhile p = [] ∨
      ∃ c t, l.dropWhile p = c :: t ∧ p c = false := by
  intro l
  induction l with
  | nil => exact Or.inl rfl
  | cons c l ih =>
    rw [List.dropWhile_cons]
    cases hc : p c with
    | true => simpa using ih
    | false => exact Or.inr ⟨c, l, by simp, hc⟩

/-- The first dash-delimited token survives the `".0"`-stripping cleaning
when it contains neither a dot nor a dash (true of the accepted key
prefixes). -/
theorem firstTok_cleanText_eq {k : String} {pre : List Char}
    (hdot : ∀ c ∈ pre, c ≠ '.') (hdash : ∀ c ∈ pre, (c != '-') = true)
    (h : firstTok k = ⟨pre⟩) : firstTok (cleanText k) = ⟨pre⟩ := by
  have hdata : k.data.takeWhile (fun c => c != '-') = pre := congrArg String.data h
  have hsplit : k.data = pre ++ k.data.dropWhile (fun c => c != '-') := by
    rw [← hdata]
    exact (List.takeWhile_append_dropWhile (fun c => c != '-') k.data).symm
  have hstrip : stripDot0 k.data =
      pre ++ stripDot0 (k.data.dropWhile (fun c => c != '-')) := by
    conv_lhs => rw [hsplit]
    exact stripDot0_append_no_dot hdot _
  show (⟨(stripDot0 k.data).takeWhile (fun c => c != '-')⟩ : String) = ⟨pre⟩
  rw [hstrip, takeWhile_append_all hdash]
  rcases dropWhile_head_false (p := fun c => c != '-') k.data with hnil | ⟨c, t, hct, hc⟩
  · rw [hnil]
    simp [stripDot0]
  · rw [hct]
    have hcd : c = '-' := by simpa using hc
    subst hcd
    rw [stripDot0_cons_ne (by decide : ('-' : Char) ≠ '.')]
    simp [List.takeWhile_cons]

/-- The accepted sales prefix `"2301"` survives the warehouse-stage key
cleaning. -/
theorem firstTok_cleanText_2301 {k : String} (h : firstTok k = "2301") :
    firstTok (cleanText k) = "2301" := by
  have h' : firstTok k = ⟨['2', '3', '0', '1']⟩ := by rw [h]
  exact (firstTok_cleanText_eq (by decide) (by decide) h').trans (by rfl)

/-- The accepted sales prefix `"2302"` survives the warehouse-stage key
cleaning. -/
theorem firstTok_cleanText_2302 {k : String} (h : firstTok k = "2302") :
    firstTok (cleanText k) = "2302" := by
  have h' : firstTok k = ⟨['2', '3', '0', '2']⟩ := by rw [h]
  exact (firstTok_cleanText_eq (by decide) (by decide) h').trans (by rfl)

/-- C3: the disallowed-prefix invariant.  If every fact row's business-key
token before the first `"-"` lies in the accepted set (orders: `"2201"`;
sales: `"2301"`/`"2302"`), this still holds after any run of either
processor: the promotion filter admits only accepted prefixes, conflict
updates never change the business key, and the sales warehouse-stage key
cleaning cannot alter an accepted prefix.  Hence a staging row with a
disallowed prefix is never placed in the fact relation. -/
theorem c3_prefix_filter_invariant (raws : List OrderRaw) (t tw : Nat)
    (raws2 : List SalesRaw) (t2 tw2 : Nat) (s : DW)
    (hO : ∀ f ∈ s.fact_order, firstTok f.order_code = "2201")
    (hS : ∀ f ∈ s.fact_sales,
      firstTok f.sales_code = "2301" ∨ firstTok f.sales_code = "2302") :
    (∀ f ∈ ((runOrder raws t tw s).1).fact_order, firstTok f.order_code = "2201") ∧
    (∀ f ∈ ((runSales raws2 t2 tw2 s).1).fact_sales,
      firstTok f.sales_code = "2301" ∨ firstTok f.sales_code = "2302") := by
  constructor
  · rw [runOrder_unfold]
    split
    · exact hO
    · refine upsertTable_preserve (fun f => f.order_code) updFactOrder
        (fun _ _ h => h) _ s.fact_order hO ?_
      intro b hb
      rcases List.mem_map.mp hb with ⟨r, hr, rfl⟩
      have h2 := (List.mem_filter.mp (List.mem_filter.mp hr).1).2
      simpa using h2
  · rw [runSales_unfold]
    split
    · exact hS
    · refine upsertTable_preserve (fun f => f.sales_code) updFactSales
        (fun _ _ h => h) _ s.fact_sales hS ?_
      intro b hb
      rcases List.mem_map.mp hb with ⟨r, hr, rfl⟩
      have h2 := (List.mem_filter.mp (List.mem_filter.mp hr).1).2
      simp only [Bool.or_eq_true, beq_iff_eq] at h2
      rcases h2 with h2 | h2
      · exact Or.inl (firstTok_cleanText_2301 h2)
      · exact Or.inr (firstTok_cleanText_2302 h2)

/-- C3 (witness): the invariant applied to the empty warehouse and one-row
extracts of each kind. -/
theorem c3_prefix_filter_invariant_witness :
    (∀ f ∈ ((runOrder
        [⟨some 3, some "2201", some "F", none, none, some "P", some "q",
          some 5, some 2, none, some 1⟩] 1 2 emptyDW).1).fact_order,
      firstTok f.order_code = "2201") ∧
    (∀ f ∈ ((runSales
        [⟨some 3, some "2301", some "F", none, none, some "P", some "PN",
          some "q", none, some 4, none⟩] 1 2 emptyDW).1).fact_sales,
      firstTok f.sales_code = "2301" ∨ firstTok f.sales_code = "2302") :=
  c3_prefix_filter_invariant
    [⟨some 3, some "2201", some "F", none, none, some "P", some "q",
      some 5, some 2, none, some 1⟩] 1 2
    [⟨some 3, some "2301", some "F", none, none, some "P", some "PN",
      some "q", none, some 4, none⟩] 1 2 emptyDW (by decide) (by decide)

/-- C5 (amended): the KDT remap tests the four markers sequentially (ST, TN,
BP, QT), each match overwriting the code, so a row whose companion field
contains "ST" (case-insensitively) and none of the later markers promotes
with corrected code "30895.1"; when a later marker also occurs, its
correction wins instead.  Both kinds are covered; the companion value is the
one the code inspects (order: the staged `factory_order_code`; sales: the
warehouse-stage cleaned `factory_order_code`), null-filled with "temp". -/
theorem c5_kdt_remap_amended (tw : Nat) (sel : List StagingOrder) (r : StagingOrder)
    (hr : r ∈ sel) (hpre : firstTok r.order_code = "2201") (hqc : r.qc.isSome = true)
    (hfc : cleanText (pyStr r.factory_code) = "30895.2")
    (hST : strContainsCI (r.factory_order_code.getD "temp") "ST" = true)
    (hTN : strContainsCI (r.factory_order_code.getD "temp") "TN" = false)
    (hBP : strContainsCI (r.factory_order_code.getD "temp") "BP" = false)
    (hQT : strContainsCI (r.factory_order_code.getD "temp") "QT" = false)
    (twS : Nat) (selS : List StagingSales) (rs : StagingSales) (hrs : rs ∈ selS)
    (hpreS : firstTok rs.sales_code = "2301" ∨ firstTok rs.sales_code = "2302")
    (hqcS : rs.qc.isSome = true)
    (hfcS : cleanText rs.factory_code = "30895.2")
    (hSTS : strContainsCI ((rs.factory_order_code.map cleanText).getD "temp") "ST" = true)
    (hTNS : strContainsCI ((rs.factory_order_code.map cleanText).getD "temp") "TN" = false)
    (hBPS : strContainsCI ((rs.factory_order_code.map cleanText).getD "temp") "BP" = false)
    (hQTS : strContainsCI ((rs.factory_order_code.map cleanText).getD "temp") "QT" = false) :
    (∃ b ∈ promoteBatchOrder tw sel,
      b.order_code = r.order_code ∧ b.factory_code = "30895.1") ∧
    (∃ b ∈ promoteBatchSales twS selS,
      b.sales_code = cleanText rs.sales_code ∧ b.factory_code = "30895.1") := by
  constructor
  · refine ⟨promoteRowOrder tw r, ?_, rfl, ?_⟩
    · unfold promoteBatchOrder
      refine List.mem_map_of_mem _ (List.mem_filter.mpr ⟨List.mem_filter.mpr ⟨hr, ?_⟩, hqc⟩)
      simp [hpre]
    · show kdtCode (cleanText (pyStr r.factory_code)) r.factory_order_code = "30895.1"
      rw [hfc]
      unfold kdtCode
      rw [if_pos (by decide : (("30895.2" : String) == "30895.2") = true)]
      simp only [hST, hTN, hBP, hQT]
      rfl
  · refine ⟨promoteRowSales twS rs, ?_, rfl, ?_⟩
    · unfold promoteBatchSales
      refine List.mem_map_of_mem _ (List.mem_filter.mpr ⟨List.mem_filter.mpr ⟨hrs, ?_⟩, hqcS⟩)
      rcases hpreS with h | h <;> simp [h]
    · show kdtCode (cleanText rs.factory_code) (rs.factory_order_code.map cleanText) = "30895.1"
      rw [hfcS]
      unfold kdtCode
      rw [if_pos (by decide : (("30895.2" : String) == "30895.2") = true)]
      simp only [hSTS, hTNS, hBPS, hQTS]
      rfl

/-- C5 (witness): one selected row per kind matching the ST pattern with no
later marker promotes with code "30895.1". -/
theorem c5_kdt_remap_amended_witness :
    (∃ b ∈ promoteBatchOrder 2
        [⟨"2201-0001", none, some "30895.2", none, some "xSt7", none, none, none,
          some "q", some 5, some 2, 1⟩],
      b.order_code = "2201-0001" ∧ b.factory_code = "30895.1") ∧
    (∃ b ∈ promoteBatchSales 2
        [⟨"2301-0001", none, "30895.2", none, none, none, none, some "q", none,
          some 4, some "St", 1⟩],
      b.sales_code = cleanText "2301-0001" ∧ b.factory_code = "30895.1") :=
  c5_kdt_remap_amended 2
    [⟨"2201-0001", none, some "30895.2", none, some "xSt7", none, none, none,
      some "q", some 5, some 2, 1⟩]
    ⟨"2201-0001", none, some "30895.2", none, some "xSt7", none, none, none,
      some "q", some 5, some 2, 1⟩
    (by decide) (by decide) (by decide) (by decide) (by decide) (by decide)
    (by decide) (by decide) 2
    [⟨"2301-0001", none, "30895.2", none, none, none, none, some "q", none,
      some 4, some "St", 1⟩]
    ⟨"2301-0001", none, "30895.2", none, none, none, none, some "q", none,
      some 4, some "St", 1⟩
    (by decide) (Or.inl (by decide)) (by decide) (by decide) (by decide)
    (by decide) (by decide) (by decide)

/-- C5 (counterexample): a watermark-selected order row with factory code
"30895.2" whose companion field "STTN" contains the marker "ST"
(case-insensitively) does not promote with code "30895.1": the later "TN"
marker matches too and overwrites the correction, so the promoted fact row
carries "30895". -/
theorem c5_kdt_remap_counterexample :
    strContainsCI "STTN" "ST" = true ∧
    ((runOrder
        [⟨some 3, some "2201", some "30895.2", none, none, none, some "q",
          some 5, some 2, some "STTN", some 1⟩] 1 2 emptyDW).1).fact_order.map
      (fun f => f.factory_code) = ["30895"] ∧
    ("30895" : String) ≠ "30895.1" :=
  ⟨by decide, by decide, by decide⟩

/-- C6 (amended): only order runs perform dimension reconciliation, factory
and product, and only on the promotion path — an order run that finds no
staging row newer than the watermark returns early without touching the
dimension relations, and sales runs never touch them at all. -/
theorem c6_dim_reconciliation_amended (raws : List OrderRaw) (t tw : Nat) (s : DW)
    (raws2 : List SalesRaw) (t2 tw2 : Nat) :
    ((orderSelected raws t s ≠ [] →
        ((runOrder raws t tw s).1).dim_factory =
          updateFactoryList s.dim_factory (orderStagedTable raws t s) ∧
        ((runOrder raws t tw s).1).dim_product =
          updateProductList s.dim_product (orderStagedTable raws t s)) ∧
     (orderSelected raws t s = [] →
        ((runOrder raws t tw s).1).dim_factory = s.dim_factory ∧
        ((runOrder raws t tw s).1).dim_product = s.dim_product)) ∧
    (((runSales raws2 t2 tw2 s).1).dim_factory = s.dim_factory ∧
     ((runSales raws2 t2 tw2 s).1).dim_product = s.dim_product) := by
  refine ⟨⟨?_, ?_⟩, ?_⟩
  · intro hne
    rw [runOrder_unfold]
    rw [if_neg (by simpa [List.isEmpty_iff] using hne)]
    exact ⟨rfl, rfl⟩
  · intro hemp
    rw [runOrder_unfold]
    rw [if_pos (by simpa [List.isEmpty_iff] using hemp)]
    exact ⟨rfl, rfl⟩
  · rw [runSales_unfold]
    split
    · exact ⟨rfl, rfl⟩
    · exact ⟨rfl, rfl⟩

/-- C6 (witness): the amended statement at a concrete state: an order run
with one fresh staged row reconciles both dimensions from the whole staging
relation, and a sales run leaves the dimensions untouched. -/
theorem c6_dim_reconciliation_amended_witness :
    ((orderSelected
        [⟨some 3, some "2201", some "F", some "N", none, some "P", some "q",
          some 5, some 2, none, some 1⟩] 1 emptyDW ≠ [] →
        ((runOrder
          [⟨some 3, some "2201", some "F", some "N", none, some "P", some "q",
            some 5, some 2, none, some 1⟩] 1 2 emptyDW).1).dim_factory =
          updateFactoryList emptyDW.dim_factory
            (orderStagedTable
              [⟨some 3, some "2201", some "F", some "N", none, some "P", some "q",
                some 5, some 2, none, some 1⟩] 1 emptyDW) ∧
        ((runOrder
          [⟨some 3, some "2201", some "F", some "N", none, some "P", some "q",
            some 5, some 2, none, some 1⟩] 1 2 emptyDW).1).dim_product =
          updateProductList emptyDW.dim_product
            (orderStagedTable
              [⟨some 3, some "2201", some "F", some "N", none, some "P", some "q",
                some 5, some 2, none, some 1⟩] 1 emptyDW)) ∧
     (orderSelected
        [⟨some 3, some "2201", some "F", some "N", none, some "P", some "q",
          some 5, some 2, none, some 1⟩] 1 emptyDW = [] →
        ((runOrder
          [⟨some 3, some "2201", some "F", some "N", none, some "P", some "q",
            some 5, some 2, none, some 1⟩] 1 2 emptyDW).1).dim_factory =
          emptyDW.dim_factory ∧
        ((runOrder
          [⟨some 3, some "2201", some "F", some "N", none, some "P", some "q",
            some 5, some 2, none, some 1⟩] 1 2 emptyDW).1).dim_product =
          emptyDW.dim_product)) ∧
    (((runSales [] 1 2 emptyDW).1).dim_factory = emptyDW.dim_factory ∧
     ((runSales [] 1 2 emptyDW).1).dim_product = emptyDW.dim_product) :=
  c6_dim_reconciliation_amended
    [⟨some 3, some "2201", some "F", some "N", none, some "P", some "q",
      some 5, some 2, none, some 1⟩] 1 2 emptyDW [] 1 2

/-- C6 (counterexample): two fatal-error-free runs that perform no dimension
reconciliation.  (1) An order run whose watermark query returns no rows
returns early: the dimensions stay empty although reconciling the staging
relation would insert factory "F1" and product "PN".  (2) A sales run that
does promote a fact row still leaves the dimension relations untouched —
the sales processor has no dimension stage at all. -/
theorem c6_dim_reconciliation_counterexample :
    ((runOrder [] 6 7
        ⟨[⟨"2201-0001", some 3, some "F1", some "N", none, none, some "P",
           some "PN", some "q", some 5, some 2, 5⟩],
         [⟨"2201-0001", "F1", none, some "P", some "PN", some "q", some 5,
           some 2, 5, 1⟩], [], [], [], []⟩).1).dim_factory = [] ∧
    ((runOrder [] 6 7
        ⟨[⟨"2201-0001", some 3, some "F1", some "N", none, none, some "P",
           some "PN", some "q", some 5, some 2, 5⟩],
         [⟨"2201-0001", "F1", none, some "P", some "PN", some "q", some 5,
           some 2, 5, 1⟩], [], [], [], []⟩).1).dim_product = [] ∧
    updateFactoryList []
        [⟨"2201-0001", some 3, some "F1", some "N", none, none, some "P",
          some "PN", some "q", some 5, some 2, 5⟩] ≠ [] ∧
    updateProductList []
        [⟨"2201-0001", some 3, some "F1", some "N", none, none, some "P",
          some "PN", some "q", some 5, some 2, 5⟩] ≠ [] ∧
    ((runSales
        [⟨some 3, some "2301", some "F1", some "N", none, some "P", some "PN",
          some "q", none, some 4, none⟩] 1 2 emptyDW).1).fact_sales ≠ [] ∧
    ((runSales
        [⟨some 3, some "2301", some "F1", some "N", none, some "P", some "PN",
          some "q", none, some 4, none⟩] 1 2 emptyDW).1).dim_factory = [] ∧
    ((runSales
        [⟨some 3, some "2301", some "F1", some "N", none, some "P", some "PN",
          some "q", none, some 4, none⟩] 1 2 emptyDW).1).dim_product = [] :=
  ⟨by decide, by decide, by decide, by decide, by decide, by decide, by decide⟩

/-- C7 (amended): the staged business key of every surviving order row is the
natural key, `"-"`, and the zero-padded 4-digit sequence number from the
source column; two rows sharing natural key `"ORD1"` with sequences 1 and 2
get the distinct keys `"ORD1-0001"`/`"ORD1-0002"`, but rows promote to the
fact relation only if their natural key is in the accepted prefix set — with
accepted natural key `"2201"` the two rows promote to two distinct fact
rows.  For sales rows the sequence is the per-natural-key running count in
source row order (and the key additionally passes the `".0"`-stripping text
cleaning). -/
theorem c7_business_key_amended (t : Nat) (raws : List OrderRaw) (r : OrderRaw)
    (oc : String) (n : Nat) (hr : r ∈ raws) (hoc : r.order_code = some oc)
    (hn : r.numerical_order = some n) :
    (∃ st ∈ normalizeOrder t raws, st.order_code = oc ++ "-" ++ pad4 n) ∧
    ((normalizeOrder 1
        [⟨none, some "ORD1", none, none, none, none, some "q", some 5, some 2,
          none, some 1⟩,
         ⟨none, some "ORD1", none, none, none, none, some "q", some 7, some 3,
          none, some 2⟩]).map (fun x => x.order_code) =
      ["ORD1-0001", "ORD1-0002"]) ∧
    (((runOrder
        [⟨none, some "2201", none, none, none, none, some "q", some 5, some 2,
          none, some 1⟩,
         ⟨none, some "2201", none, none, none, none, some "q", some 7, some 3,
          none, some 2⟩] 1 2 emptyDW).1).fact_order.map (fun f => f.order_code) =
      ["2201-0001", "2201-0002"]) ∧
    ((normalizeSales 1
        [⟨some 3, some "2301", some "F", none, none, none, none, some "q", none,
          some 4, none⟩,
         ⟨some 3, some "2301", some "F", none, none, none, none, some "q", none,
          some 6, none⟩]).map (fun x => x.sales_code) =
      ["2301-0001", "2301-0002"]) := by
  refine ⟨?_, by decide, by decide, by decide⟩
  refine ⟨{ order_code := oc ++ "-" ++ pad4 n
            order_date := r.order_date
            factory_code := r.factory_code.map cleanText
            factory_name := r.factory_name
            factory_order_code := r.factory_order_code.map cleanText
            salesman := none
            product_code := r.product_code.map cleanText
            product_name := r.product_name.map cleanText
            qc := r.qc.map cleanText
            order_quantity := r.order_quantity
            delivered_quantity := r.delivered_quantity
            import_timestamp := t }, ?_, rfl⟩
  unfold normalizeOrder
  refine List.mem_filterMap.mpr ⟨r, hr, ?_⟩
  rw [hoc, hn]

/-- C7 (witness): the amended key-synthesis statement at a one-row extract. -/
theorem c7_business_key_amended_witness :
    (∃ st ∈ normalizeOrder 9
        [⟨none, some "ORD", none, none, none, none, some "q", some 5, some 2,
          none, some 7⟩],
      st.order_code = "ORD" ++ "-" ++ pad4 7) ∧
    ((normalizeOrder 1
        [⟨none, some "ORD1", none, none, none, none, some "q", some 5, some 2,
          none, some 1⟩,
         ⟨none, some "ORD1", none, none, none, none, some "q", some 7, some 3,
          none, some 2⟩]).map (fun x => x.order_code) =
      ["ORD1-0001", "ORD1-0002"]) ∧
    (((runOrder
        [⟨none, some "2201", none, none, none, none, some "q", some 5, some 2,
          none, some 1⟩,
         ⟨none, some "2201", none, none, none, none, some "q", some 7, some 3,
          none, some 2⟩] 1 2 emptyDW).1).fact_order.map (fun f => f.order_code) =
      ["2201-0001", "2201-0002"]) ∧
    ((normalizeSales 1
        [⟨some 3, some "2301", some "F", none, none, none, none, some "q", none,
          some 4, none⟩,
         ⟨some 3, some "2301", some "F", none, none, none, none, some "q", none,
          some 6, none⟩]).map (fun x => x.sales_code) =
      ["2301-0001", "2301-0002"]) :=
  c7_business_key_amended 9
    [⟨none, some "ORD", none, none, none, none, some "q", some 5, some 2,
      none, some 7⟩]
    ⟨none, some "ORD", none, none, none, none, some "q", some 5, some 2,
      none, some 7⟩
    "ORD" 7 (by decide) (by decide) (by decide)

/-- C7 (counterexample): the two `"ORD1"` rows do get the distinct staging
keys `"ORD1-0001"` and `"ORD1-0002"`, but they do not promote to two fact
rows: their business-key token before the first `"-"` is `"ORD1"`, which is
outside the accepted order set `{"2201"}`, so the fact relation stays empty,
refuting the claim's "both promote to two distinct fact rows". -/
theorem c7_ord1_counterexample :
    ((normalizeOrder 1
        [⟨none, some "ORD1", none, none, none, none, some "q", some 5, some 2,
          none, some 1⟩,
         ⟨none, some "ORD1", none, none, none, none, some "q", some 7, some 3,
          none, some 2⟩]).map (fun x => x.order_code) =
      ["ORD1-0001", "ORD1-0002"]) ∧
    ("ORD1-0001" : String) ≠ "ORD1-0002" ∧
    ((runOrder
        [⟨none, some "ORD1", none, none, none, none, some "q", some 5, some 2,
          none, some 1⟩,
         ⟨none, some "ORD1", none, none, none, none, some "q", some 7, some 3,
          none, some 2⟩] 1 2 emptyDW).1).fact_order = [] :=
  ⟨by decide, by decide, by decide⟩

/-- An element returned by `getLast?` is a member. -/
theorem mem_of_getLast? {α : Type} : ∀ {l : List α} {b : α}, l.getLast? = some b → b ∈ l
  | [], _, h => by cases h
  | [a], b, h => by
    rw [List.getLast?_singleton] at h
    cases h
    exact List.mem_singleton_self _
  | a :: c :: t, b, h => by
    rw [List.getLast?_cons_cons] at h
    exact List.mem_cons_of_mem _ (mem_of_getLast? h)

/-- Projections of the run state: the staging relation after an order run. -/
theorem runOrder_copr13 (raws : List OrderRaw) (t tw : Nat) (s : DW) :
    ((runOrder raws t tw s).1).copr13 = orderStagedTable raws t s := by
  rw [runOrder_unfold]
  split
  · rfl
  · rfl

/-- Projections of the run state: the fact relation after an order run. -/
theorem runOrder_fact_order (raws : List OrderRaw) (t tw : Nat) (s : DW) :
    ((runOrder raws t tw s).1).fact_order =
      if (orderSelected raws t s).isEmpty then s.fact_order
      else upsertTable (fun f => f.order_code) updFactOrder s.fact_order
        (promoteBatchOrder tw (orderSelected raws t s)) := by
  rw [runOrder_unfold]
  split
  · rfl
  · rfl

/-- Projections of the run state: the staging relation after a sales run. -/
theorem runSales_copr23 (raws : List SalesRaw) (t tw : Nat) (s : DW) :
    ((runSales raws t tw s).1).copr23 = salesStagedTable raws t s := by
  rw [runSales_unfold]
  split
  · rfl
  · rfl

/-- Projections of the run state: the fact relation after a sales run. -/
theorem runSales_fact_sales (raws : List SalesRaw) (t tw : Nat) (s : DW) :
    ((runSales raws t tw s).1).fact_sales =
      if (salesSelected raws t s).isEmpty then s.fact_sales
      else upsertTable (fun f => f.sales_code) updFactSales s.fact_sales
        (promoteBatchSales tw (salesSelected raws t s)) := by
  rw [runSales_unfold]
  split
  · rfl
  · rfl

/-- Occurrence lists in a key-unique batch: empty, or the single member
carrying the key. -/
theorem filter_key_nodup_cases {α : Type} (key : α → String) {rs : List α}
    (hnd : (rs.map key).Nodup) (k : String) :
    rs.filter (fun x => key x == k) = [] ∨
      ∃ b ∈ rs, key b = k ∧ rs.filter (fun x => key x == k) = [b] := by
  cases hf : rs.filter (fun x => key x == k) with
  | nil => exact Or.inl rfl
  | cons b rest =>
    have hb : b ∈ rs ∧ (key b == k) = true :=
      List.mem_filter.mp (hf ▸ List.mem_cons_self b rest)
    have hkb : key b = k := by simpa using hb.2
    right
    have h1 : rs.filter (fun x => key x == key b) = [b] := filter_key_of_nodup key hnd hb.1
    simp only [hkb] at h1
    exact ⟨b, hb.1, hkb, by rw [← hf]; exact h1⟩

/-- In a timestamp-sorted relation, when the stricter of two threshold
filters is nonempty the two filters share their last element (the stricter
filter keeps a suffix of the laxer one). -/
theorem getLast?_filter_threshold {α : Type} (ts : α → Nat) (P : α → Bool)
    {w0 w1 : Nat} (hw : w0 ≤ w1) :
    ∀ S : List α, S.Pairwise (fun a b => ts a ≤ ts b) →
      S.filter (fun r => P r && decide (w1 < ts r)) ≠ [] →
      (S.filter (fun r => P r && decide (w1 < ts r))).getLast? =
        (S.filter (fun r => P r && decide (w0 < ts r))).getLast? := by
  intro S
  induction S using List.reverseRecOn with
  | nil => intro _ hne; simp at hne
  | append_singleton l x ih =>
    intro hmono hne
    have hcross : ∀ a ∈ l, ts a ≤ ts x := by
      have hsplit := List.pairwise_append.mp hmono
      exact fun a ha => hsplit.2.2 a ha x (List.mem_singleton_self x)
    have hmono' : l.Pairwise (fun a b => ts a ≤ ts b) :=
      (List.pairwise_append.mp hmono).1
    rw [List.filter_append] at hne ⊢
    rw [List.filter_append]
    by_cases hPx : P x = true
    · by_cases hx1 : w1 < ts x
      · have hx0 : w0 < ts x := lt_of_le_of_lt hw hx1
        have hfx1 : [x].filter (fun r => P r && decide (w1 < ts r)) = [x] := by
          simp [hPx, hx1]
        have hfx0 : [x].filter (fun r => P r && decide (w0 < ts r)) = [x] := by
          simp [hPx, hx0]
        rw [hfx1, hfx0, List.getLast?_concat, List.getLast?_concat]
      · have hfl : l.filter (fun r => P r && decide (w1 < ts r)) = [] := by
          rw [List.filter_eq_nil_iff]
          intro a ha
          simp only [Bool.and_eq_true, decide_eq_true_eq, not_and]
          intro _
          have := hcross a ha
          omega
        have hfx : [x].filter (fun r => P r && decide (w1 < ts r)) = [] := by
          simp [hPx, hx1]
        rw [hfl, hfx] at hne
        simp at hne
    · have hfx1 : [x].filter (fun r => P r && decide (w1 < ts r)) = [] := by
        simp [hPx]
      have hfx0 : [x].filter (fun r => P r && decide (w0 < ts r)) = [] := by
        simp [hPx]
      rw [hfx1, hfx0, List.append_nil, List.append_nil]
      rw [hfx1, List.append_nil] at hne
      exact ih hmono' hne

/-- The promoted order batch inherits key uniqueness from the selected rows. -/
theorem nodup_keys_promoteBatchOrder {sel : List StagingOrder}
    (h : (sel.map (fun r => r.order_code)).Nodup) (tw : Nat) :
    ((promoteBatchOrder tw sel).map (fun f => f.order_code)).Nodup := by
  have heq : (promoteBatchOrder tw sel).map (fun f => f.order_code) =
      ((sel.filter (fun r => firstTok r.order_code == "2201")).filter
        (fun r => r.qc.isSome)).map (fun r => r.order_code) := by
    unfold promoteBatchOrder
    rw [List.map_map]
    rfl
  rw [heq]
  exact nodup_keys_filter _ (nodup_keys_filter _ h _) _

/-- A selected order row that passes the promotion filters leaves, in the
promoted fact relation, a slot under its key carrying its quantities. -/
theorem order_promote_from_sel1 (tw1 : Nat) {sel1 : List StagingOrder}
    {F0 F1 : List FactOrder}
    (hndsel1 : (sel1.map (fun r => r.order_code)).Nodup)
    (hF1 : F1 = upsertTable (fun f => f.order_code) updFactOrder F0
      (promoteBatchOrder tw1 sel1))
    {r1 : StagingOrder} (hr1 : r1 ∈ sel1)
    (hpre : (firstTok r1.order_code == "2201") = true) (hqc : r1.qc.isSome = true) :
    ∃ a, findRow (fun f => f.order_code) F1 r1.order_code = some a ∧
      a.order_quantity = r1.order_quantity ∧
      a.delivered_quantity = r1.delivered_quantity := by
  have hkF : KeyUpd (fun f : FactOrder => f.order_code) updFactOrder := fun _ _ => rfl
  have hb1 : promoteRowOrder tw1 r1 ∈ promoteBatchOrder tw1 sel1 := by
    unfold promoteBatchOrder
    exact List.mem_map_of_mem _
      (List.mem_filter.mpr ⟨List.mem_filter.mpr ⟨hr1, hpre⟩, hqc⟩)
  have hocc : (promoteBatchOrder tw1 sel1).filter
      (fun x => x.order_code == r1.order_code) = [promoteRowOrder tw1 r1] :=
    filter_key_of_nodup (fun f => f.order_code)
      (nodup_keys_promoteBatchOrder hndsel1 tw1) hb1
  have hchar := findRow_upsertTable (fun f : FactOrder => f.order_code) updFactOrder hkF
    r1.order_code (promoteBatchOrder tw1 sel1) F0
  rw [hocc] at hchar
  obtain ⟨x, happ, hoq, hdq⟩ :=
    applyOccs_updFactOrder_single (findRow (fun f => f.order_code) F0 r1.order_code)
      (promoteRowOrder tw1 r1)
  rw [happ] at hchar
  exact ⟨x, by rw [hF1]; exact hchar, hoq, hdq⟩

/-- Every row promoted by the second of two back-to-back order runs of the
same extract finds, in the fact relation left by the first run, a row under
its business key that already carries its quantity measures. -/
theorem order_second_run_meas (raws : List OrderRaw) (t1 t2 tw1 tw2 : Nat) (s : DW)
    (hndS : (s.copr13.map (fun r => r.order_code)).Nodup)
    (hndF : (s.fact_order.map (fun f => f.order_code)).Nodup)
    (htsS : ∀ r ∈ s.copr13, r.import_timestamp < t1)
    (htsF : ∀ f ∈ s.fact_order, f.import_timestamp < t1)
    (ht0 : 0 < t1) (h12 : t1 < t2) :
    ∀ b ∈ promoteBatchOrder tw2 (orderSelected raws t2 (runOrder raws t1 tw1 s).1),
      ∃ a, findRow (fun f => f.order_code) ((runOrder raws t1 tw1 s).1).fact_order
            b.order_code = some a ∧
        a.order_quantity = b.order_quantity ∧
        a.delivered_quantity = b.delivered_quantity := by
  have hkS : KeyUpd (fun r : StagingOrder => r.order_code) updStagingOrder := fun _ _ => rfl
  set S0 := s.copr13 with hS0def
  set F0 := s.fact_order with hF0def
  set B1 := normalizeOrder t1 raws with hB1def
  set S1 := upsertTable (fun r : StagingOrder => r.order_code) updStagingOrder S0 B1
    with hS1def
  set sel1 := selectNewOrder S1 F0 with hsel1def
  set F1 := ((runOrder raws t1 tw1 s).1).fact_order with hF1def
  set S2 := upsertTable (fun r : StagingOrder => r.order_code) updStagingOrder S1
    (B1.map (stampO t2)) with hS2def
  have hF1eq : F1 = if sel1.isEmpty then F0
      else upsertTable (fun f => f.order_code) updFactOrder F0
        (promoteBatchOrder tw1 sel1) := runOrder_fact_order raws t1 tw1 s
  have hc1 : ((runOrder raws t1 tw1 s).1).copr13 = S1 := runOrder_copr13 raws t1 tw1 s
  have hsel2 : orderSelected raws t2 (runOrder raws t1 tw1 s).1 = selectNewOrder S2 F1 := by
    unfold orderSelected orderStagedTable
    rw [hc1, normalizeOrder_stamp t1 t2 raws]
  rw [hsel2]
  intro b hb
  obtain ⟨r, hrfil, rfl⟩ := List.mem_map.mp hb
  obtain ⟨hrfil1, hqc⟩ := List.mem_filter.mp hrfil
  obtain ⟨hrsel2, hpre⟩ := List.mem_filter.mp hrfil1
  obtain ⟨hrS2, hW1r⟩ := List.mem_filter.mp hrsel2
  have hW1r' : watermarkOrder F1 < r.import_timestamp := by simpa using hW1r
  have hndS1 : (S1.map (fun r => r.order_code)).Nodup :=
    nodup_keys_upsertTable _ _ hkS B1 S0 hndS
  have hndS2 : (S2.map (fun r => r.order_code)).Nodup :=
    nodup_keys_upsertTable _ _ hkS _ S1 hndS1
  have hndsel1 : (sel1.map (fun r => r.order_code)).Nodup :=
    nodup_keys_filter _ hndS1 _
  have hW01 : watermarkOrder F0 ≤ watermarkOrder F1 := by
    rw [hF1eq]
    split
    · exact le_refl _
    · exact listMax_upsertTable (fun f => f.order_code) updFactOrder
        (fun f => f.import_timestamp) (fun _ _ => rfl) _ F0
  have hW0t1 : watermarkOrder F0 < t1 := by
    apply listMax_lt_of_all_lt ht0
    intro x hx
    rcases List.mem_map.mp hx with ⟨f, hf, rfl⟩
    exact htsF f hf
  have hfr2 : findRow (fun r => r.order_code) S2 r.order_code = some r :=
    findRow_self _ hndS2 hrS2
  have hchar2 := findRow_upsertTable (fun r : StagingOrder => r.order_code) updStagingOrder
    hkS r.order_code (B1.map (stampO t2)) S1
  have hoccmap : (B1.map (stampO t2)).filter (fun x => x.order_code == r.order_code) =
      (B1.filter (fun x => x.order_code == r.order_code)).map (stampO t2) := by
    rw [List.filter_map]
    rfl
  rw [hoccmap] at hchar2
  rcases eq_or_ne (B1.filter (fun x => x.order_code == r.order_code)) [] with hocc | hocc
  · -- the key is untouched by the second staging pass: the row is an old one
    rw [hocc] at hchar2
    simp only [List.map_nil, applyOccs] at hchar2
    have hfr1 : findRow (fun r => r.order_code) S1 r.order_code = some r := by
      rw [hchar2] at hfr2
      exact hfr2
    have hrS1 : r ∈ S1 := (findRow_mem _ hfr1).1
    have hrsel1 : r ∈ sel1 := by
      rw [hsel1def]
      unfold selectNewOrder
      refine List.mem_filter.mpr ⟨hrS1, ?_⟩
      simp only [decide_eq_true_eq]
      omega
    have hselne : ¬ sel1.isEmpty = true := by
      cases hsel : sel1 with
      | nil => rw [hsel] at hrsel1; cases hrsel1
      | cons c cs => simp [List.isEmpty]
    have hF1up : F1 = upsertTable (fun f => f.order_code) updFactOrder F0
        (promoteBatchOrder tw1 sel1) := by
      rw [hF1eq, if_neg hselne]
    exact order_promote_from_sel1 tw1 hndsel1 hF1up hrsel1 hpre hqc
  · -- the key was re-staged at time t2; relate the slot to the run-1 slot
    have hocc2ne : (B1.filter (fun x => x.order_code == r.order_code)).map (stampO t2) ≠ [] := by
      simpa using hocc
    -- run-1 slot under this key
    have hchar1 := findRow_upsertTable (fun r : StagingOrder => r.order_code) updStagingOrder
      hkS r.order_code B1 S0
    obtain ⟨r1, blast1, happ1, hlast1, hr1oq, hr1dq, hr1ts⟩ :=
      applyOccs_updStagingOrder_last hocc
        (findRow (fun r => r.order_code) S0 r.order_code)
    rw [happ1] at hchar1
    have hfr1 : findRow (fun r => r.order_code) S1 r.order_code = some r1 := hchar1
    -- run-2 slot is the run-1 slot with measures of the re-stamped last occurrence
    rw [hfr1] at hchar2
    rw [applyOccs_some] at hchar2
    have hreq : r = ((B1.filter (fun x => x.order_code == r.order_code)).map
        (stampO t2)).foldl updStagingOrder r1 := by
      rw [hchar2] at hfr2
      exact (Option.some.inj hfr2).symm
    obtain ⟨bb, hbblast, heq2⟩ :=
      foldl_updStagingOrder_last _ hocc2ne r1
    rw [getLast?_map, hlast1] at hbblast
    have hbb : bb = stampO t2 blast1 := by
      simpa using hbblast.symm
    rw [heq2, hbb] at hreq
    -- transfer the filters and the measures from r to r1
    have hkeyr1 : r1.order_code = r.order_code := (findRow_mem _ hfr1).2
    have hqceq : r.qc = r1.qc := by rw [hreq]
    have hqcr1 : r1.qc.isSome = true := by
      rw [← hqceq]
      exact hqc
    have hprer1 : (firstTok r1.order_code == "2201") = true := by
      rw [hkeyr1]
      exact hpre
    have hoqr : r.order_quantity = r1.order_quantity := by
      rw [hreq, hr1oq]
      rfl
    have hdqr : r.delivered_quantity = r1.delivered_quantity := by
      rw [hreq, hr1dq]
      rfl
    have hts1 : r1.import_timestamp = t1 := by
      rw [hr1ts]
      have hblastB1 : blast1 ∈ B1 :=
        List.mem_of_mem_filter (mem_of_getLast? hlast1)
      exact normalizeOrder_ts t1 raws blast1 hblastB1
    have hrS1 : r1 ∈ S1 := (findRow_mem _ hfr1).1
    have hrsel1 : r1 ∈ sel1 := by
      rw [hsel1def]
      unfold selectNewOrder
      refine List.mem_filter.mpr ⟨hrS1, ?_⟩
      simp only [decide_eq_true_eq]
      omega
    have hselne : ¬ sel1.isEmpty = true := by
      cases hsel : sel1 with
      | nil => rw [hsel] at hrsel1; cases hrsel1
      | cons c cs => simp [List.isEmpty]
    have hF1up : F1 = upsertTable (fun f => f.order_code) updFactOrder F0
        (promoteBatchOrder tw1 sel1) := by
      rw [hF1eq, if_neg hselne]
    obtain ⟨a, hfind, haoq, hadq⟩ :=
      order_promote_from_sel1 tw1 hndsel1 hF1up hrsel1 hprer1 hqcr1
    rw [hkeyr1] at hfind
    exact ⟨a, hfind, by rw [haoq]; exact hoqr.symm, by rw [hadq]; exact hdqr.symm⟩

/-- Re-running the same order extract leaves the fact relation unchanged up
to the two timestamp columns: every row the second run promotes is a
conflict-update that re-applies measures already present. -/
theorem order_second_run_fact_eq (raws : List OrderRaw) (t1 t2 tw1 tw2 : Nat) (s : DW)
    (hndS : (s.copr13.map (fun r => r.order_code)).Nodup)
    (hndF : (s.fact_order.map (fun f => f.order_code)).Nodup)
    (htsS : ∀ r ∈ s.copr13, r.import_timestamp < t1)
    (htsF : ∀ f ∈ s.fact_order, f.import_timestamp < t1)
    (ht0 : 0 < t1) (h12 : t1 < t2) :
    ((runOrder raws t2 tw2 (runOrder raws t1 tw1 s).1).1).fact_order.map FactOrder.erase
      = ((runOrder raws t1 tw1 s).1).fact_order.map FactOrder.erase := by
  have hmeas := order_second_run_meas raws t1 t2 tw1 tw2 s hndS hndF htsS htsF ht0 h12
  have hkF : KeyUpd (fun f : FactOrder => f.order_code) updFactOrder := fun _ _ => rfl
  have hkSt : KeyUpd (fun r : StagingOrder => r.order_code) updStagingOrder := fun _ _ => rfl
  have hfact2 := runOrder_fact_order raws t2 tw2 (runOrder raws t1 tw1 s).1
  by_cases hempty : (orderSelected raws t2 (runOrder raws t1 tw1 s).1).isEmpty = true
  · rw [hfact2, if_pos hempty]
  · rw [hfact2, if_neg hempty]
    have hndF1 : (((runOrder raws t1 tw1 s).1).fact_order.map (fun f => f.order_code)).Nodup := by
      rw [runOrder_fact_order raws t1 tw1 s]
      split
      · exact hndF
      · exact nodup_keys_upsertTable _ _ hkF _ _ hndF
    have hin : ∀ b ∈ promoteBatchOrder tw2 (orderSelected raws t2 (runOrder raws t1 tw1 s).1),
        b.order_code ∈ ((runOrder raws t1 tw1 s).1).fact_order.map (fun f => f.order_code) := by
      intro b hb
      obtain ⟨a, hfind, _, _⟩ := hmeas b hb
      have hm := findRow_mem (fun f : FactOrder => f.order_code) hfind
      exact hm.2 ▸ List.mem_map_of_mem _ hm.1
    rw [upsertTable_all_conflicts _ _ hkF _ _ hndF1 hin]
    rw [List.map_map]
    apply List.map_congr_left
    intro a ha
    simp only [Function.comp]
    have hndB2 : ((promoteBatchOrder tw2 (orderSelected raws t2 (runOrder raws t1 tw1 s).1)).map
        (fun f => f.order_code)).Nodup := by
      apply nodup_keys_promoteBatchOrder
      have hstaged : ((orderStagedTable raws t2 (runOrder raws t1 tw1 s).1).map
          (fun r => r.order_code)).Nodup := by
        apply nodup_keys_upsertTable _ _ hkSt
        rw [runOrder_copr13 raws t1 tw1 s]
        exact nodup_keys_upsertTable _ _ hkSt _ _ hndS
      unfold orderSelected selectNewOrder
      exact nodup_keys_filter _ hstaged _
    rcases filter_key_nodup_cases (fun f : FactOrder => f.order_code) hndB2 a.order_code
      with hocc | ⟨b, hbmem, hkb, hocc⟩
    · rw [hocc]
      rfl
    · rw [hocc]
      obtain ⟨a', hfind, hoq, hdq⟩ := hmeas b hbmem
      have hfa : findRow (fun f => f.order_code) ((runOrder raws t1 tw1 s).1).fact_order
          a.order_code = some a := findRow_self _ hndF1 ha
      rw [hkb, hfa] at hfind
      obtain rfl : a = a' := Option.some.inj hfind
      show FactOrder.erase (updFactOrder a b) = FactOrder.erase a
      simp [updFactOrder, FactOrder.erase, hoq, hdq]

/-- Composing two filters is filtering by the conjunction. -/
theorem filter_filter_eq {α : Type} (p q : α → Bool) :
    ∀ l : List α, (l.filter p).filter q = l.filter (fun a => p a && q a)
  | [] => rfl
  | a :: l => by
    rw [List.filter_cons]
    by_cases hp : p a = true
    · rw [if_pos hp, List.filter_cons, List.filter_cons]
      by_cases hq : q a = true
      · rw [if_pos hq, if_pos (by simp [hp, hq])]
        rw [filter_filter_eq p q l]
      · rw [if_neg hq, if_neg (by simp [hp, hq])]
        exact filter_filter_eq p q l
    · rw [if_neg hp, List.filter_cons, if_neg (by simp [hp])]
      exact filter_filter_eq p q l

/-- Rearranging a four-fold conjunction of Booleans. -/
theorem bool_shuffle (w a b c : Bool) :
    (((w && a) && b) && c) = (((a && b) && c) && w) := by
  cases w <;> cases a <;> cases b <;> cases c <;> rfl

/-- A constant-timestamp list is timestamp-sorted. -/
theorem pairwise_ts_const {α : Type} (ts : α → Nat) {l : List α} {t : Nat}
    (h : ∀ x ∈ l, ts x = t) : l.Pairwise (fun a b => ts a ≤ ts b) := by
  induction l with
  | nil => exact List.Pairwise.nil
  | cons x l ih =>
    refine List.Pairwise.cons ?_ (ih (fun y hy => h y (List.mem_cons_of_mem _ hy)))
    intro y hy
    rw [h x (List.mem_cons_self _ _), h y (List.mem_cons_of_mem _ hy)]

/-- The occurrences of a fact key in a promoted sales batch are the images of
the selected rows that pass the filters and whose cleaned key matches. -/
theorem occs_promoteBatchSales (tw : Nat) (sel : List StagingSales) (κ : String) :
    (promoteBatchSales tw sel).filter (fun x => x.sales_code == κ) =
      (sel.filter (fun r =>
        ((firstTok r.sales_code == "2301" || firstTok r.sales_code == "2302") &&
          r.qc.isSome) && (cleanText r.sales_code == κ))).map (promoteRowSales tw) := by
  unfold promoteBatchSales
  rw [List.filter_map, filter_filter_eq, filter_filter_eq]
  apply congrArg (List.map (promoteRowSales tw))
  apply List.filter_congr
  intro x _
  simp [Function.comp, promoteRowSales, Bool.and_assoc]

/-- A nonempty list has a last element. -/
theorem getLast?_isSome_of_ne_nil {α : Type} :
    ∀ {l : List α}, l ≠ [] → ∃ b, l.getLast? = some b
  | [], h => absurd rfl h
  | [a], _ => ⟨a, rfl⟩
  | a :: c :: t, _ => by
    obtain ⟨b, hb⟩ := getLast?_isSome_of_ne_nil (l := c :: t) (by simp)
    exact ⟨b, by rw [List.getLast?_cons_cons]; exact hb⟩

/-- Re-staging the same sales extract is a no-op: every key of the re-stamped
batch is already present and the conflict action is `DO NOTHING`. -/
theorem sales_staged_rerun (raws2 : List SalesRaw) (t1 t2 u1 : Nat) (s : DW) :
    salesStagedTable raws2 t2 (runSales raws2 t1 u1 s).1 = salesStagedTable raws2 t1 s := by
  have hkSS : KeyUpd (fun r : StagingSales => r.sales_code) updStagingSales :=
    fun _ _ => rfl
  show upsertTable (fun r => r.sales_code) updStagingSales
      ((runSales raws2 t1 u1 s).1).copr23 (normalizeSales t2 raws2) = _
  rw [runSales_copr23]
  have hB2 : normalizeSales t2 raws2 = (normalizeSales t1 raws2).map (stampS t2) :=
    normSalesGo_stamp t1 t2 raws2 []
  rw [hB2]
  apply upsertTable_keepOld_noop _ _ (fun _ _ => rfl)
  intro b hb
  rcases List.mem_map.mp hb with ⟨c, hc, rfl⟩
  have hkc : (stampS t2 c).sales_code ∈
      (normalizeSales t1 raws2).map (fun r => r.sales_code) := by
    show c.sales_code ∈ _
    exact List.mem_map_of_mem _ hc
  exact mem_keys_upsertTable_batch _ _ hkSS _ _ hkc

/-- Every row promoted by the second of two back-to-back sales runs of the
same extract carries a business key already present in the fact relation
left by the first run. -/
theorem sales_second_run_keys (raws2 : List SalesRaw) (t1 t2 u1 u2 : Nat) (s : DW) :
    ∀ b ∈ promoteBatchSales u2 (salesSelected raws2 t2 (runSales raws2 t1 u1 s).1),
      b.sales_code ∈ ((runSales raws2 t1 u1 s).1).fact_sales.map (fun f => f.sales_code) := by
  intro b hb
  have hkFS : KeyUpd (fun f : FactSales => f.sales_code) updFactSales := fun _ _ => rfl
  have hsel2 : salesSelected raws2 t2 (runSales raws2 t1 u1 s).1 =
      selectNewSales (salesStagedTable raws2 t1 s)
        ((runSales raws2 t1 u1 s).1).fact_sales := by
    unfold salesSelected
    rw [sales_staged_rerun, runSales_fact_sales]
  rw [hsel2] at hb
  obtain ⟨r, hrfil, rfl⟩ := List.mem_map.mp hb
  obtain ⟨hrfil1, hqc⟩ := List.mem_filter.mp hrfil
  obtain ⟨hrsel2, hpre⟩ := List.mem_filter.mp hrfil1
  obtain ⟨hrS1, hW1r⟩ := List.mem_filter.mp hrsel2
  have hF1eq := runSales_fact_sales raws2 t1 u1 s
  have hW01 : watermarkSales s.fact_sales ≤
      watermarkSales ((runSales raws2 t1 u1 s).1).fact_sales := by
    rw [hF1eq]
    split
    · exact le_refl _
    · exact listMax_upsertTable (fun f => f.sales_code) updFactSales
        (fun f => f.import_timestamp) (fun _ _ => rfl) _ s.fact_sales
  simp only [decide_eq_true_eq] at hW1r
  have hrsel1 : r ∈ salesSelected raws2 t1 s := by
    unfold salesSelected selectNewSales
    refine List.mem_filter.mpr ⟨hrS1, ?_⟩
    simp only [decide_eq_true_eq]
    omega
  have hselne : ¬ (salesSelected raws2 t1 s).isEmpty = true := by
    cases hsel : salesSelected raws2 t1 s with
    | nil => rw [hsel] at hrsel1; cases hrsel1
    | cons c cs => simp [List.isEmpty]
  have hF1up : ((runSales raws2 t1 u1 s).1).fact_sales =
      upsertTable (fun f => f.sales_code) updFactSales s.fact_sales
        (promoteBatchSales u1 (salesSelected raws2 t1 s)) := by
    rw [hF1eq, if_neg hselne]
  have hb1 : promoteRowSales u1 r ∈ promoteBatchSales u1 (salesSelected raws2 t1 s) := by
    unfold promoteBatchSales
    exact List.mem_map_of_mem _
      (List.mem_filter.mpr ⟨List.mem_filter.mpr ⟨hrsel1, hpre⟩, hqc⟩)
  rw [hF1up]
  have hmem2 : (promoteRowSales u2 r).sales_code ∈
      (promoteBatchSales u1 (salesSelected raws2 t1 s)).map (fun f => f.sales_code) := by
    show cleanText r.sales_code ∈ _
    exact List.mem_map_of_mem (fun f : FactSales => f.sales_code) hb1
  exact mem_keys_upsertTable_batch _ _ hkFS _ _ hmem2

/-- Re-running the same sales extract leaves the fact relation unchanged up
to the two timestamp columns: the second selection is a suffix-per-key of
the first (staging is untouched by the re-run and is timestamp-sorted), so
each conflict-update re-applies the measure already present. -/
theorem sales_second_run_fact_eq (raws2 : List SalesRaw) (t1 t2 u1 u2 : Nat) (s : DW)
    (hndF : (s.fact_sales.map (fun f => f.sales_code)).Nodup)
    (htsS : ∀ r ∈ s.copr23, r.import_timestamp < t1)
    (hmono : s.copr23.Pairwise (fun a b => a.import_timestamp ≤ b.import_timestamp)) :
    ((runSales raws2 t2 u2 (runSales raws2 t1 u1 s).1).1).fact_sales.map FactSales.erase
      = ((runSales raws2 t1 u1 s).1).fact_sales.map FactSales.erase := by
  have hkFS : KeyUpd (fun f : FactSales => f.sales_code) updFactSales := fun _ _ => rfl
  have hkSS : KeyUpd (fun r : StagingSales => r.sales_code) updStagingSales :=
    fun _ _ => rfl
  have hfact2 := runSales_fact_sales raws2 t2 u2 (runSales raws2 t1 u1 s).1
  by_cases hempty : (salesSelected raws2 t2 (runSales raws2 t1 u1 s).1).isEmpty = true
  · rw [hfact2, if_pos hempty]
  · rw [hfact2, if_neg hempty]
    have hkeys := sales_second_run_keys raws2 t1 t2 u1 u2 s
    have hndF1 : (((runSales raws2 t1 u1 s).1).fact_sales.map
        (fun f => f.sales_code)).Nodup := by
      rw [runSales_fact_sales raws2 t1 u1 s]
      split
      · exact hndF
      · exact nodup_keys_upsertTable _ _ hkFS _ _ hndF
    rw [upsertTable_all_conflicts _ _ hkFS _ _ hndF1 hkeys]
    rw [List.map_map]
    apply List.map_congr_left
    intro a ha
    simp only [Function.comp]
    rcases eq_or_ne ((promoteBatchSales u2
        (salesSelected raws2 t2 (runSales raws2 t1 u1 s).1)).filter
        (fun x => x.sales_code == a.sales_code)) [] with hocc | hocc
    · rw [hocc]
      rfl
    · set S1 := salesStagedTable raws2 t1 s with hS1def
      set F1 := ((runSales raws2 t1 u1 s).1).fact_sales with hF1def
      set Q : StagingSales → Bool := fun r =>
        ((firstTok r.sales_code == "2301" || firstTok r.sales_code == "2302") &&
          r.qc.isSome) && (cleanText r.sales_code == a.sales_code) with hQdef
      have hsel2 : salesSelected raws2 t2 (runSales raws2 t1 u1 s).1 =
          S1.filter (fun r => decide (watermarkSales F1 < r.import_timestamp)) := by
        unfold salesSelected
        rw [sales_staged_rerun]
        rfl
      have hoccD2 : (promoteBatchSales u2
          (salesSelected raws2 t2 (runSales raws2 t1 u1 s).1)).filter
            (fun x => x.sales_code == a.sales_code) =
          (S1.filter (fun r => Q r &&
            decide (watermarkSales F1 < r.import_timestamp))).map (promoteRowSales u2) := by
        rw [occs_promoteBatchSales, hsel2, filter_filter_eq]
        apply congrArg (List.map (promoteRowSales u2))
        apply List.filter_congr
        intro x _
        rw [hQdef]
        rw [Bool.and_comm]
      have hoccD1 : (promoteBatchSales u1 (salesSelected raws2 t1 s)).filter
            (fun x => x.sales_code == a.sales_code) =
          (S1.filter (fun r => Q r &&
            decide (watermarkSales s.fact_sales < r.import_timestamp))).map
              (promoteRowSales u1) := by
        rw [occs_promoteBatchSales]
        show ((selectNewSales S1 s.fact_sales).filter _).map _ = _
        unfold selectNewSales
        rw [filter_filter_eq]
        apply congrArg (List.map (promoteRowSales u1))
        apply List.filter_congr
        intro x _
        rw [hQdef]
        rw [Bool.and_comm]
      have hW01 : watermarkSales s.fact_sales ≤ watermarkSales F1 := by
        rw [hF1def, runSales_fact_sales raws2 t1 u1 s]
        split
        · exact le_refl _
        · exact listMax_upsertTable (fun f => f.sales_code) updFactSales
            (fun f => f.import_timestamp) (fun _ _ => rfl) _ s.fact_sales
      have hPair : S1.Pairwise (fun x y => x.import_timestamp ≤ y.import_timestamp) := by
        obtain ⟨ext, hshape, hsub⟩ := upsertTable_keepOld_shape
          (fun r : StagingSales => r.sales_code) updStagingSales (fun _ _ => rfl)
          (normalizeSales t1 raws2) s.copr23
        rw [hS1def]
        show (upsertTable (fun r => r.sales_code) updStagingSales s.copr23
          (normalizeSales t1 raws2)).Pairwise _
        rw [hshape]
        rw [List.pairwise_append]
        refine ⟨hmono, ?_, ?_⟩
        · exact pairwise_ts_const (fun r : StagingSales => r.import_timestamp)
            (fun x hx => normSalesGo_ts t1 raws2 [] x (hsub x hx))
        · intro x hx y hy
          have h1 := htsS x hx
          have h2 := normSalesGo_ts t1 raws2 [] y (hsub y hy)
          omega
      set D2 := S1.filter (fun r => Q r &&
        decide (watermarkSales F1 < r.import_timestamp)) with hD2def
      set D1 := S1.filter (fun r => Q r &&
        decide (watermarkSales s.fact_sales < r.import_timestamp)) with hD1def
      have hD2ne : D2 ≠ [] := by
        intro hnil
        rw [hoccD2, hnil] at hocc
        exact hocc rfl
      have hlast12 : D2.getLast? = D1.getLast? :=
        getLast?_filter_threshold (fun r => r.import_timestamp) Q hW01 S1 hPair hD2ne
      obtain ⟨d, hd⟩ := getLast?_isSome_of_ne_nil hD2ne
      have hd1 : D1.getLast? = some d := by rw [← hlast12]; exact hd
      have hD1ne : D1 ≠ [] := by
        intro hnil
        rw [hnil] at hd1
        cases hd1
      have hdD1 : d ∈ D1 := mem_of_getLast? hd1
      have hdmem := List.mem_filter.mp hdD1
      have hdS1 : d ∈ S1 := hdmem.1
      have hdQ : (Q d && decide (watermarkSales s.fact_sales < d.import_timestamp)) = true :=
        hdmem.2
      have hdsel1 : d ∈ salesSelected raws2 t1 s := by
        show d ∈ selectNewSales S1 s.fact_sales
        unfold selectNewSales
        refine List.mem_filter.mpr ⟨hdS1, ?_⟩
        simp only [Bool.and_eq_true] at hdQ
        exact hdQ.2
      have hselne : ¬ (salesSelected raws2 t1 s).isEmpty = true := by
        cases hsel : salesSelected raws2 t1 s with
        | nil => rw [hsel] at hdsel1; cases hdsel1
        | cons c cs => simp [List.isEmpty]
      have hF1up : F1 = upsertTable (fun f => f.sales_code) updFactSales s.fact_sales
          (promoteBatchSales u1 (salesSelected raws2 t1 s)) := by
        rw [hF1def, runSales_fact_sales raws2 t1 u1 s, if_neg hselne]
      have hchar := findRow_upsertTable (fun f : FactSales => f.sales_code) updFactSales
        hkFS a.sales_code (promoteBatchSales u1 (salesSelected raws2 t1 s)) s.fact_sales
      rw [hoccD1] at hchar
      have hocc1ne : (D1.map (promoteRowSales u1)) ≠ [] := by
        simpa using hD1ne
      obtain ⟨x, blF, happ, hlastF, hxsq⟩ :=
        applyOccs_updFactSales_last hocc1ne
          (findRow (fun f => f.sales_code) s.fact_sales a.sales_code)
      rw [happ] at hchar
      have hfa : findRow (fun f => f.sales_code) F1 a.sales_code = some a :=
        findRow_self _ hndF1 ha
      rw [hF1up] at hfa
      rw [hfa] at hchar
      obtain rfl : a = x := Option.some.inj hchar
      have hblF : blF = promoteRowSales u1 d := by
        rw [getLast?_map, hd1] at hlastF
        exact (Option.some.inj hlastF).symm
      have hasq : a.sales_quantity = d.sales_quantity := by
        rw [hxsq, hblF]
        simp [promoteRowSales]
      rw [hoccD2]
      obtain ⟨bl, hbl, heq⟩ := foldl_updFactSales_last (D2.map (promoteRowSales u2))
        (by simpa using hD2ne) a
      have hbl2 : bl = promoteRowSales u2 d := by
        rw [getLast?_map, hd] at hbl
        exact (Option.some.inj hbl).symm
      have hblsq : bl.sales_quantity = a.sales_quantity := by
        rw [hbl2, hasq]
        rfl
      rw [heq]
      simp [FactSales.erase, hblsq]

/-- C1: processing the same extract twice in succession yields an identical
fact relation after the second run as after the first — the same rows up to
the two timestamp columns (same business keys, same measure values) — and
every row the second run promotes carries a business key already present in
the fact relation, so it is applied by the `ON CONFLICT ... DO UPDATE` of the
mutable measures and `import_wh_timestamp`, never as a duplicate insert.
Both kinds are covered.  The hypotheses are the warehouse invariants the
pipeline itself maintains: business keys are unique in each relation, every
stored timestamp precedes the new run's clock reading, the second run's
clock is later than the first's, and the sales staging relation is kept
in import order (its inserts are append-only `DO NOTHING`). -/
theorem c1_idempotent_rerun (raws : List OrderRaw) (raws2 : List SalesRaw)
    (t1 t2 tw1 tw2 u1 u2 uw1 uw2 : Nat) (s : DW)
    (hndS : (s.copr13.map (fun r => r.order_code)).Nodup)
    (hndF : (s.fact_order.map (fun f => f.order_code)).Nodup)
    (htsS : ∀ r ∈ s.copr13, r.import_timestamp < t1)
    (htsF : ∀ f ∈ s.fact_order, f.import_timestamp < t1)
    (ht0 : 0 < t1) (h12 : t1 < t2)
    (hndFs : (s.fact_sales.map (fun f => f.sales_code)).Nodup)
    (htsSs : ∀ r ∈ s.copr23, r.import_timestamp < u1)
    (hmono : s.copr23.Pairwise (fun a b => a.import_timestamp ≤ b.import_timestamp)) :
    (((runOrder raws t2 tw2 (runOrder raws t1 tw1 s).1).1).fact_order.map FactOrder.erase
        = ((runOrder raws t1 tw1 s).1).fact_order.map FactOrder.erase ∧
      ∀ b ∈ promoteBatchOrder tw2 (orderSelected raws t2 (runOrder raws t1 tw1 s).1),
        b.order_code ∈ ((runOrder raws t1 tw1 s).1).fact_order.map (fun f => f.order_code)) ∧
    (((runSales raws2 u2 uw2 (runSales raws2 u1 uw1 s).1).1).fact_sales.map FactSales.erase
        = ((runSales raws2 u1 uw1 s).1).fact_sales.map FactSales.erase ∧
      ∀ b ∈ promoteBatchSales uw2 (salesSelected raws2 u2 (runSales raws2 u1 uw1 s).1),
        b.sales_code ∈ ((runSales raws2 u1 uw1 s).1).fact_sales.map (fun f => f.sales_code)) := by
  refine ⟨⟨order_second_run_fact_eq raws t1 t2 tw1 tw2 s hndS hndF htsS htsF ht0 h12, ?_⟩,
    sales_second_run_fact_eq raws2 u1 u2 uw1 uw2 s hndFs htsSs hmono,
    sales_second_run_keys raws2 u1 u2 uw1 uw2 s⟩
  intro b hb
  obtain ⟨a, hfind, _, _⟩ :=
    order_second_run_meas raws t1 t2 tw1 tw2 s hndS hndF htsS htsF ht0 h12 b hb
  have hm := findRow_mem (fun f : FactOrder => f.order_code) hfind
  exact hm.2 ▸ List.mem_map_of_mem _ hm.1

/-- C1 (witness): the idempotence statement at concrete one-row extracts of
each kind against the empty warehouse. -/
theorem c1_idempotent_rerun_witness :
    (((runOrder
          [⟨some 3, some "2201", some "F", none, none, some "P", some "q",
            some 5, some 2, none, some 1⟩] 2 2
          (runOrder
            [⟨some 3, some "2201", some "F", none, none, some "P", some "q",
              some 5, some 2, none, some 1⟩] 1 1 emptyDW).1).1).fact_order.map
        FactOrder.erase
        = ((runOrder
            [⟨some 3, some "2201", some "F", none, none, some "P", some "q",
              some 5, some 2, none, some 1⟩] 1 1 emptyDW).1).fact_order.map
          FactOrder.erase ∧
      ∀ b ∈ promoteBatchOrder 2
          (orderSelected
            [⟨some 3, some "2201", some "F", none, none, some "P", some "q",
              some 5, some 2, none, some 1⟩] 2
            (runOrder
              [⟨some 3, some "2201", some "F", none, none, some "P", some "q",
                some 5, some 2, none, some 1⟩] 1 1 emptyDW).1),
        b.order_code ∈ ((runOrder
            [⟨some 3, some "2201", some "F", none, none, some "P", some "q",
              some 5, some 2, none, some 1⟩] 1 1 emptyDW).1).fact_order.map
          (fun f => f.order_code)) ∧
    (((runSales
          [⟨some 3, some "2301", some "F", none, none, none, none, some "q",
            none, some 4, none⟩] 2 2
          (runSales
            [⟨some 3, some "2301", some "F", none, none, none, none, some "q",
              none, some 4, none⟩] 1 1 emptyDW).1).1).fact_sales.map
        FactSales.erase
        = ((runSales
            [⟨some 3, some "2301", some "F", none, none, none, none, some "q",
              none, some 4, none⟩] 1 1 emptyDW).1).fact_sales.map FactSales.erase ∧
      ∀ b ∈ promoteBatchSales 2
          (salesSelected
            [⟨some 3, some "2301", some "F", none, none, none, none, some "q",
              none, some 4, none⟩] 2
            (runSales
              [⟨some 3, some "2301", some "F", none, none, none, none, some "q",
                none, some 4, none⟩] 1 1 emptyDW).1),
        b.sales_code ∈ ((runSales
            [⟨some 3, some "2301", some "F", none, none, none, none, some "q",
              none, some 4, none⟩] 1 1 emptyDW).1).fact_sales.map
          (fun f => f.sales_code)) :=
  c1_idempotent_rerun
    [⟨some 3, some "2201", some "F", none, none, some "P", some "q",
      some 5, some 2, none, some 1⟩]
    [⟨some 3, some "2301", some "F", none, none, none, none, some "q",
      none, some 4, none⟩]
    1 2 1 2 1 2 1 2 emptyDW
    (by decide) (by decide) (by decide) (by decide) (by decide) (by decide)
    (by decide) (by decide) (by decide)
